import Mathlib

/-! The gocc LR parser runtime (`parser/gen/golang/parser.go`)

A shallow embedding of the runtime that gocc emits for every grammar: the
parse stack, the error recovery routine `Parser.Error` and the main loop
`Parser.Parse`, together with the example productions table of
`example/astx/parser/productionstable.go`.

Conventions of the embedding.

* Go `int` values (states, token types, production indices, `NumSymbols`)
  are `Int`; no arithmetic in the runtime can overflow before a slice or
  index bound is hit.
* A Go run-time panic is the `Except.error` branch, with a `Fault` telling
  which one.  `Fault.outOfFuel` is not a Go behaviour: it marks that the step
  budget given to a loop of the model was used up.
* The generated tables (`actionTab`, `gotoTab`, `productionsTable`) and the
  `token` package are not part of the template; they are the fields of
  `Tables`, which every function takes as its first argument.
* The scanner is an arbitrary token stream `Nat → Token` with a cursor; the
  cursor counts the calls of `Scan`.
-/

namespace Gocc

/-! ## Data model -/

/-- Ways in which the Go code aborts instead of returning. -/
inductive Fault where
  /-- Go run-time error: index out of range. -/
  | indexOutOfRange
  /-- Go run-time error: slice bounds out of range. -/
  | sliceBounds
  /-- Go run-time error: nil pointer dereference. -/
  | nilDereference
  /-- Go run-time error: failed type assertion `x.(T)`. -/
  | typeAssertion
  /-- An explicit `panic(msg)` of `parser.go`. -/
  | panic (msg : String)
  /-- A panic raised inside a semantic action (a `ReduceFunc`). -/
  | inAction (f : Fault)
  /-- The step budget of the model ran out (the Go loop is still running). -/
  | outOfFuel
  deriving DecidableEq, Repr

/-- The type `token.Token`: a token type, the literal and the position. -/
structure Token where
  Typ : Int
  Lit : String
  Pos : Nat
  deriving DecidableEq, Repr

namespace parseError

/-- The type `parseError.Error` over the attribute type `α`
(`ErrorSymbol` is an alias of `Attrib` in the generated `errors` package). -/
structure Error (α : Type) where
  Err : Option String
  ErrorToken : Option Token
  ErrorSymbols : List α
  ExpectedTokens : List String
  deriving Repr

end parseError

/-- The type `Attrib` (`interface{}`): `nil`, a token pushed by a shift, the
error attribute pushed by `Parser.Error`, or a value built by a semantic
action (a labelled tree over attributes). -/
inductive Attrib where
  | nil
  | tok (t : Token)
  | error (e : parseError.Error Attrib)
  | node (label : String) (kids : List Attrib)

/-- The action types of the generated action table: `accept`, `shift`,
`reduce`; a `nil` table entry is `none`. -/
inductive action where
  | accept (b : Bool)
  | shift (s : Int)
  | reduce (p : Int)
  deriving DecidableEq, Repr

/-- One row of `actionTab`. -/
structure actionRow where
  canRecover : Bool
  actions : List (Option action)
  deriving DecidableEq, Repr

/-- The type `ProdTabEntry` of `productionstable.go`.  A `ReduceFunc` returns
the Go pair `(Attrib, error)`, with `none` for a `nil` error, unless it panics. -/
structure ProdTabEntry where
  Id : String
  NTType : Int
  Index : Int
  NumSymbols : Int
  ReduceFunc : List Attrib → Except Fault (Attrib × Option String)
  String : String

/-- The package-level tables and constants the runtime reads. -/
structure Tables where
  /-- The table `actionTab`. -/
  actionTab : List actionRow
  /-- The table `gotoTab`. -/
  gotoTab : List (List Int)
  /-- The table `productionsTable`. -/
  productionsTable : List ProdTabEntry
  /-- The function `token.TokMap.Id`. -/
  tokId : Int → String
  /-- The value of `token.TokMap.Type("error")`. -/
  errorType : Int
  /-- The constant `token.EOF`. -/
  EOF : Int

/-- Go indexing `xs[i]` with an `int` index: aborts outside `0 ≤ i < len`. -/
def index {α : Type} (xs : List α) (i : Int) : Except Fault α :=
  if i < 0 then .error .indexOutOfRange
  else match xs[i.toNat]? with
    | some x => .ok x
    | none => .error .indexOutOfRange

/-! ## Stack -/

/-- The type `stack`: two parallel slices. -/
structure stack where
  state : List Int
  attrib : List Attrib

/-- The function `newStack`. -/
def newStack : stack := { state := [], attrib := [] }

/-- The method `stack.reset`. -/
def stack.reset (_this : stack) : stack := { state := [], attrib := [] }

/-- The method `stack.push`. -/
def stack.push (this : stack) (s : Int) (a : Attrib) : stack :=
  { state := this.state ++ [s], attrib := this.attrib ++ [a] }

/-- The method `stack.top`: `this.state[len(this.state) - 1]`. -/
def stack.top (this : stack) : Except Fault Int :=
  index this.state ((this.state.length : Int) - 1)

/-- The method `stack.peek`. -/
def stack.peek (this : stack) (pos : Int) : Except Fault Int :=
  index this.state pos

/-- The method `stack.topIndex`. -/
def stack.topIndex (this : stack) : Int := (this.state.length : Int) - 1

/-- The method `stack.popN`.  The slice expression `this.attrib[lo:hi]` needs
`0 ≤ lo ≤ hi ≤ cap`; the model takes the capacity of the attribute slice to be
its length (the two only differ on stacks whose sequences have different
lengths, which no method produces). -/
def stack.popN (this : stack) (items : Int) : Except Fault (List Attrib × stack) :=
  let lo : Int := (this.state.length : Int) - items
  let hi : Int := (this.state.length : Int)
  if lo < 0 ∨ hi < lo ∨ (this.attrib.length : Int) < hi then .error .sliceBounds
  else
    let attrib := (this.attrib.take hi.toNat).drop lo.toNat
    .ok (attrib, { state := this.state.take lo.toNat, attrib := this.attrib.take lo.toNat })

/-! ## Parser -/

/-- The type `Scanner`: the token source.  A scanner is its stream of tokens
and a cursor; the cursor is the number of `Scan` calls made so far. -/
structure Scanner where
  src : Nat → Token
  pos : Nat

/-- The method `Scanner.Scan`: the token under the cursor; the cursor moves on. -/
def Scanner.Scan (sc : Scanner) : Token × Scanner :=
  (sc.src sc.pos, { sc with pos := sc.pos + 1 })

/-- The type `Parser`; `nextToken` is a pointer and is `nil` in a new parser. -/
structure Parser where
  stack : stack
  nextToken : Option Token
  pos : Int

/-- The method `Parser.Reset`. -/
def Parser.Reset (P : Parser) : Parser :=
  { P with stack := (P.stack.reset).push 0 Attrib.nil }

/-- The function `NewParser`. -/
def NewParser : Parser :=
  Parser.Reset { stack := newStack, nextToken := none, pos := 0 }

/-- The loop of `firstRecoveryState`; the first argument is `recoveryState`,
which is never negative when the loop is entered. -/
def firstRecoveryState.loop (T : Tables) (st : stack) : Nat → Bool → Except Fault (Int × Bool)
  | 0, canRecover => .ok (0, canRecover)
  | n + 1, canRecover =>
    if canRecover then .ok (((n + 1 : Nat) : Int), canRecover)
    else
      match st.peek (n : Int) with
      | .error f => .error f
      | .ok s =>
        match index T.actionTab s with
        | .error f => .error f
        | .ok row => firstRecoveryState.loop T st n row.canRecover

/-- The method `Parser.firstRecoveryState`. -/
def firstRecoveryState (T : Tables) (P : Parser) : Except Fault (Int × Bool) :=
  match P.stack.top with
  | .error f => .error f
  | .ok s =>
    match index T.actionTab s with
    | .error f => .error f
    | .ok row => firstRecoveryState.loop T P.stack P.stack.topIndex.toNat row.canRecover

/-- The method `Parser.popNonRecoveryStates`: the removed attributes and the
parser with the popped stack. -/
def popNonRecoveryStates (T : Tables) (P : Parser) : Except Fault (List Attrib × Parser) :=
  match firstRecoveryState T P with
  | .error f => .error f
  | .ok (rs, ok) =>
    if ok then
      match P.stack.popN (P.stack.topIndex - rs) with
      | .error f => .error f
      | .ok (errorSymbols, st) => .ok (errorSymbols, { P with stack := st })
    else .ok ([], P)

/-- The loop `for t, action := range actions` of `Parser.Error`, from index `t`
on: the identifiers of the token types whose action is not `nil`. -/
def expectedFrom (T : Tables) : Nat → List (Option action) → List String → List String
  | _, [], acc => acc
  | t, a :: rest, acc =>
    expectedFrom T (t + 1) rest (if a.isSome then acc ++ [T.tokId (t : Int)] else acc)

/-- The expression `actionTab[P.stack.top()].actions[P.nextToken.Type]`. -/
def lookahead (T : Tables) (P : Parser) : Except Fault (Option action) :=
  match P.stack.top with
  | .error f => .error f
  | .ok s =>
    match index T.actionTab s with
    | .error f => .error f
    | .ok row =>
      match P.nextToken with
      | none => .error .nilDereference
      | some tok => index row.actions tok.Typ

/-- What `Parser.Error` returns and leaves behind. -/
structure ErrorResult where
  recovered : Bool
  errorAttrib : parseError.Error Attrib
  P : Parser
  scanner : Scanner

/-- The loop condition `!recovered && P.nextToken.Type != token.EOF` of
`Parser.Error`. -/
def Error.continues (T : Tables) (recovered : Bool) (P : Parser) : Except Fault Bool :=
  if recovered then .ok false
  else
    match P.nextToken with
    | none => .error .nilDereference
    | some tok => .ok (decide (tok.Typ ≠ T.EOF))

/-- The loop `for !recovered && P.nextToken.Type != token.EOF` of
`Parser.Error`; one unit of fuel per iteration. -/
def Error.loop (T : Tables) : Nat → Bool → Parser → Scanner → Except Fault (Bool × Parser × Scanner)
  | 0, recovered, P, scanner =>
    match Error.continues T recovered P with
    | .error f => .error f
    | .ok false => .ok (recovered, P, scanner)
    | .ok true => .error .outOfFuel
  | fuel + 1, recovered, P, scanner =>
    match Error.continues T recovered P with
    | .error f => .error f
    | .ok false => .ok (recovered, P, scanner)
    | .ok true =>
      let P1 : Parser := { P with nextToken := some scanner.Scan.1 }
      match lookahead T P1 with
      | .error f => .error f
      | .ok a => Error.loop T fuel (if a.isSome then true else recovered) P1 scanner.Scan.2

/-- Lines 180 to 190 of `Parser.Error`: the resynchronisation of the lookahead. -/
def Error.resync (T : Tables) (fuel : Nat) (P : Parser) (scanner : Scanner) :
    Except Fault (Bool × Parser × Scanner) :=
  match lookahead T P with
  | .error f => .error f
  | .ok a => Error.loop T fuel a.isSome P scanner

/-- Lines 162 to 178 of `Parser.Error`: the error attribute is built, the
entries above the recovery state are popped, and the error state is pushed.
The result is the attribute, the parser, and whether the push took place
(`false`: the early `return` of line 177). -/
def Error.enter (T : Tables) (P : Parser) (err : Option String) :
    Except Fault (parseError.Error Attrib × Parser × Bool) :=
  match popNonRecoveryStates T P with
  | .error f => .error f
  | .ok (syms, P1) =>
    match P1.stack.top with
    | .error f => .error f
    | .ok s =>
      match index T.actionTab s with
      | .error f => .error f
      | .ok row =>
        let errorAttrib : parseError.Error Attrib :=
          { Err := err, ErrorToken := P.nextToken, ErrorSymbols := syms,
            ExpectedTokens := expectedFrom T 0 row.actions [] }
        match index row.actions T.errorType with
        | .error f => .error f
        | .ok none => .ok (errorAttrib, P1, false)
        | .ok (some (action.shift s1)) =>
          .ok (errorAttrib, { P1 with stack := P1.stack.push s1 (Attrib.error errorAttrib) }, true)
        | .ok (some _) => .error .typeAssertion

/-- The method `Parser.Error`. -/
def Error (T : Tables) (fuel : Nat) (P : Parser) (err : Option String) (scanner : Scanner) :
    Except Fault ErrorResult :=
  match Error.enter T P err with
  | .error f => .error f
  | .ok (errorAttrib, P1, false) =>
    .ok { recovered := false, errorAttrib := errorAttrib, P := P1, scanner := scanner }
  | .ok (errorAttrib, P1, true) =>
    match Error.resync T fuel P1 scanner with
    | .error f => .error f
    | .ok (recovered, P2, scanner2) =>
      .ok { recovered := recovered, errorAttrib := errorAttrib, P := P2, scanner := scanner2 }

/-- The content of the message that `Parser.newError` formats: the top state,
the lookahead (its text and position), and either the text of the wrapped
error or the identifiers of the expected tokens. -/
structure ErrorMessage where
  state : Int
  token : Token
  tail : String ⊕ List String
  deriving DecidableEq

/-- The method `Parser.newError`. -/
def newError (T : Tables) (P : Parser) (err : Option String) : Except Fault ErrorMessage :=
  match P.stack.top with
  | .error f => .error f
  | .ok s =>
    match P.nextToken with
    | none => .error .nilDereference
    | some tok =>
      match err with
      | some e => .ok { state := s, token := tok, tail := .inl e }
      | none =>
        match index T.actionTab s with
        | .error f => .error f
        | .ok actRow =>
          .ok { state := s, token := tok, tail := .inr (expectedFrom T 0 actRow.actions []) }

/-- How one iteration of the loop of `Parser.Parse` ends. -/
inductive Step where
  /-- The loop goes on (`acc` is still false). -/
  | next (P : Parser) (scanner : Scanner)
  /-- The accept case: `acc = true`, and `Parse` returns `res, nil`. -/
  | accepted (res : Attrib) (P : Parser) (scanner : Scanner)
  /-- One of the two `return nil, this.newError(..)`. -/
  | failed (err : ErrorMessage) (P : Parser) (scanner : Scanner)

/-- The `switch act := action.(type)` of `Parser.Parse`. -/
def Parse.dispatch (T : Tables) (P : Parser) (scanner : Scanner) : action → Except Fault Step
  | .accept _ =>
    match P.stack.popN 1 with
    | .error f => .error f
    | .ok (attrib, st) =>
      match index attrib 0 with
      | .error f => .error f
      | .ok res => .ok (.accepted res { P with stack := st } scanner)
  | .shift act =>
    match P.nextToken with
    | none => .error .nilDereference
    | some tok =>
      .ok (.next { P with stack := P.stack.push act (Attrib.tok tok),
                          nextToken := some scanner.Scan.1 } scanner.Scan.2)
  | .reduce act =>
    match index T.productionsTable act with
    | .error f => .error f
    | .ok prod =>
      match P.stack.popN prod.NumSymbols with
      | .error f => .error f
      | .ok (popped, st) =>
        let P1 : Parser := { P with stack := st }
        match prod.ReduceFunc popped with
        | .error f => .error (.inAction f)
        | .ok (_, some e) =>
          match newError T P1 (some e) with
          | .error f => .error f
          | .ok msg => .ok (.failed msg P1 scanner)
        | .ok (attrib, none) =>
          match st.top with
          | .error f => .error f
          | .ok s =>
            match index T.gotoTab s with
            | .error f => .error f
            | .ok gotoRow =>
              match index gotoRow prod.NTType with
              | .error f => .error f
              | .ok nextState => .ok (.next { P1 with stack := st.push nextState attrib } scanner)

/-- The body of the loop of `Parser.Parse` (lines 237 to 270); `fuel` is the
budget of the resynchronisation loop of `Parser.Error`. -/
def Parse.iter (T : Tables) (fuel : Nat) (P : Parser) (scanner : Scanner) : Except Fault Step :=
  match lookahead T P with
  | .error f => .error f
  | .ok (some action) => Parse.dispatch T P scanner action
  | .ok none =>
    match Error T fuel P none scanner with
    | .error f => .error f
    | .ok r =>
      if r.recovered = false then
        let P1 : Parser := { r.P with nextToken := r.errorAttrib.ErrorToken }
        match newError T P1 none with
        | .error f => .error f
        | .ok msg => .ok (.failed msg P1 r.scanner)
      else
        match lookahead T r.P with
        | .error f => .error f
        | .ok none => .error (.panic "Error recovery led to invalid action")
        | .ok (some action) => Parse.dispatch T r.P r.scanner action

/-- What `Parser.Parse` returns (`res`, `err`) and leaves behind. -/
structure ParseResult where
  res : Attrib
  err : Option ErrorMessage
  P : Parser
  scanner : Scanner

/-- The loop `for acc := false; !acc;` of `Parser.Parse`; one unit of fuel per
iteration, and the remaining budget bounds the loop of `Parser.Error`. -/
def Parse.loop (T : Tables) : Nat → Parser → Scanner → Except Fault ParseResult
  | 0, _, _ => .error .outOfFuel
  | fuel + 1, P, scanner =>
    match Parse.iter T fuel P scanner with
    | .error f => .error f
    | .ok (.next P1 scanner1) => Parse.loop T fuel P1 scanner1
    | .ok (.accepted res P1 scanner1) =>
      .ok { res := res, err := none, P := P1, scanner := scanner1 }
    | .ok (.failed msg P1 scanner1) =>
      .ok { res := Attrib.nil, err := some msg, P := P1, scanner := scanner1 }

/-- The method `Parser.Parse`. -/
def Parse (T : Tables) (fuel : Nat) (P : Parser) (scanner : Scanner) : Except Fault ParseResult :=
  Parse.loop T fuel { P.Reset with nextToken := some scanner.Scan.1 } scanner.Scan.2

/-! ## The example grammar `astx` -/

/-- The functions of the package `example/astx/ast` that the semantic actions
of `productionstable.go` call. -/
structure Ast where
  NewStmtList : Attrib → Except Fault (Attrib × Option String)
  AppendStmt : Attrib → Attrib → Except Fault (Attrib × Option String)
  NewStmt : Attrib → Except Fault (Attrib × Option String)

/-- The table `productionsTable` of `example/astx/parser/productionstable.go`. -/
def productionsTable (ast : Ast) : List ProdTabEntry :=
  [ { String := "S' : StmtList\t<<  >>",
      Id := "S'",
      NTType := 0,
      Index := 0,
      NumSymbols := 1,
      ReduceFunc := fun X =>
        match index X 0 with
        | .error f => .error f
        | .ok x0 => .ok (x0, none) },
    { String := "StmtList : Stmt\t<< ast.NewStmtList(X[0]) >>",
      Id := "StmtList",
      NTType := 1,
      Index := 1,
      NumSymbols := 1,
      ReduceFunc := fun X =>
        match index X 0 with
        | .error f => .error f
        | .ok x0 => ast.NewStmtList x0 },
    { String := "StmtList : StmtList Stmt\t<< ast.AppendStmt(X[0], X[1]) >>",
      Id := "StmtList",
      NTType := 1,
      Index := 2,
      NumSymbols := 2,
      ReduceFunc := fun X =>
        match index X 0 with
        | .error f => .error f
        | .ok x0 =>
          match index X 1 with
          | .error f => .error f
          | .ok x1 => ast.AppendStmt x0 x1 },
    { String := "Stmt : id\t<< ast.NewStmt(X[0]) >>",
      Id := "Stmt",
      NTType := 2,
      Index := 3,
      NumSymbols := 1,
      ReduceFunc := fun X =>
        match index X 0 with
        | .error f => .error f
        | .ok x0 => ast.NewStmt x0 } ]

/-! ## Sample inputs -/

/-- A sample implementation of the package `ast`: statements and statement
lists are labelled trees. -/
def sampleAst : Ast :=
  { NewStmtList := fun x => .ok (Attrib.node "StmtList" [x], none),
    AppendStmt := fun l x =>
      match l with
      | Attrib.node "StmtList" kids => .ok (Attrib.node "StmtList" (kids ++ [x]), none)
      | _ => .ok (Attrib.nil, some "not a StmtList"),
    NewStmt := fun x => .ok (Attrib.node "Stmt" [x], none) }

/-- LR(1) tables of the grammar `astx` (`S' : StmtList`, `StmtList : Stmt`,
`StmtList : StmtList Stmt`, `Stmt : id`) with the token types
`0 = INVALID`, `1 = $` (end of input) and `2 = id`. -/
def astxTables : Tables :=
  { actionTab :=
      [ { canRecover := false, actions := [none, none, some (action.shift 3)] },
        { canRecover := false, actions := [none, some (action.accept true), some (action.shift 3)] },
        { canRecover := false, actions := [none, some (action.reduce 1), some (action.reduce 1)] },
        { canRecover := false, actions := [none, some (action.reduce 3), some (action.reduce 3)] },
        { canRecover := false, actions := [none, some (action.reduce 2), some (action.reduce 2)] } ],
    gotoTab := [[-1, 1, 2], [-1, -1, 4], [-1, -1, -1], [-1, -1, -1], [-1, -1, -1]],
    productionsTable := productionsTable sampleAst,
    tokId := fun t => if t = 1 then "$" else if t = 2 then "id" else "INVALID",
    errorType := 0,
    EOF := 1 }

/-- The token `id` with literal `lit` at position `pos`. -/
def idTok (lit : String) (pos : Nat) : Token := { Typ := 2, Lit := lit, Pos := pos }

/-- The end-of-input token at position `pos`. -/
def eofTok (pos : Nat) : Token := { Typ := 1, Lit := "", Pos := pos }

/-- A scanner over the tokens `toks`, followed by end-of-input tokens. -/
def scannerOf (toks : List Token) : Scanner :=
  { src := fun i => (toks[i]?).getD (eofTok i), pos := 0 }

/-- A parser in the middle of the parse of `a`: the token has been shifted. -/
def afterShift : Parser :=
  { stack := ⟨[0, 3], [Attrib.nil, Attrib.tok (idTok "a" 0)]⟩,
    nextToken := some (eofTok 1), pos := 0 }

/-! ## Notions used in the statements -/

/-- The `canRecover` flag of the state at stack index `j`: `none` when the
index is outside the stack or the state is not a row of `actionTab`. -/
def canRecoverAt (T : Tables) (st : stack) (j : Nat) : Option Bool :=
  match st.state[j]? with
  | none => none
  | some s =>
    match index T.actionTab s with
    | .ok row => some row.canRecover
    | .error _ => none

/-- The parser that an iteration of the loop of `Parse` leaves behind. -/
def Step.parser : Step → Parser
  | .next P _ => P
  | .accepted _ P _ => P
  | .failed _ P _ => P

/-- Whether the iteration took the accept case. -/
def Step.isAccepted : Step → Bool
  | .accepted _ _ _ => true
  | _ => false

/-- The loop of `Parser.Parse` with the same budget as `Parse.loop`, recording
how each iteration ends: the list of the steps of the parse. -/
def Parse.trace (T : Tables) : Nat → Parser → Scanner → List Step
  | 0, _, _ => []
  | fuel + 1, P, scanner =>
    match Parse.iter T fuel P scanner with
    | .error _ => []
    | .ok (.next P1 scanner1) => Step.next P1 scanner1 :: Parse.trace T fuel P1 scanner1
    | .ok (.accepted res P1 scanner1) => [Step.accepted res P1 scanner1]
    | .ok (.failed msg P1 scanner1) => [Step.failed msg P1 scanner1]

/-- A table whose initial state accepts on end of input. -/
def acceptAtStart : Tables :=
  { actionTab := [{ canRecover := false, actions := [none, some (action.accept true)] }],
    gotoTab := [[]],
    productionsTable := [],
    tokId := fun t => if t = 1 then "$" else "INVALID",
    errorType := 0,
    EOF := 1 }

/-- Whether the row of actions has an action for the token type `t`. -/
def hasAction (actions : List (Option action)) (t : Nat) : Bool :=
  match actions[t]? with
  | some (some _) => true
  | _ => false

/-- The identifiers of the token types that have an action in `row`, by
increasing token type. -/
def tokensWithAction (T : Tables) (row : actionRow) : List String :=
  ((List.range row.actions.length).filter (hasAction row.actions)).map
    (fun (t : Nat) => T.tokId (t : Int))

/-- A table with error recovery over the token types `0 = INVALID`, `1 = $`,
`2 = id`, `3 = error` and `4 = ;`: state 0 can recover and shifts the error
pseudo-token to state 2, where `;` and the end of input have an action. -/
def recoveryTables : Tables :=
  { actionTab :=
      [ { canRecover := true,
          actions := [none, none, some (action.shift 1), some (action.shift 2), none] },
        { canRecover := false,
          actions := [none, none, none, none, some (action.shift 3)] },
        { canRecover := false,
          actions := [none, some (action.accept true), none, none, some (action.shift 3)] },
        { canRecover := false,
          actions := [none, some (action.accept true), none, none, none] } ],
    gotoTab := [[], [], [], []],
    productionsTable := [],
    tokId := fun t =>
      if t = 1 then "$" else if t = 2 then "id" else if t = 3 then "error"
      else if t = 4 then ";" else "INVALID",
    errorType := 3,
    EOF := 1 }

/-- The token `;` at position `pos`. -/
def semiTok (pos : Nat) : Token := { Typ := 4, Lit := ";", Pos := pos }

/-- A parser over `recoveryTables` that has shifted `a` and now sees a second
`id`, for which state 1 has no action. -/
def stuckOnId : Parser :=
  { stack := ⟨[0, 1], [Attrib.nil, Attrib.tok (idTok "a" 0)]⟩,
    nextToken := some (idTok "b" 1), pos := 0 }

/-- A parser over `recoveryTables` that has shifted `a` and now sees the end
of input, for which state 1 has no action. -/
def stuckOnEof : Parser :=
  { stack := ⟨[0, 1], [Attrib.nil, Attrib.tok (idTok "a" 0)]⟩,
    nextToken := some (eofTok 1), pos := 0 }

/-- The input `a b c ;` after its first two tokens have been scanned. -/
def restOfInput : Scanner :=
  { src := (scannerOf [idTok "a" 0, idTok "b" 1, idTok "c" 2, semiTok 3]).src, pos := 2 }

/-- A table in which no state has `canRecover`, yet state 0 shifts the error
pseudo-token (type 3) to state 1, which accepts on end of input. -/
def errorShiftNoFlag : Tables :=
  { actionTab :=
      [ { canRecover := false, actions := [none, none, none, some (action.shift 1)] },
        { canRecover := false, actions := [none, some (action.accept true), none, none] } ],
    gotoTab := [[], []],
    productionsTable := [],
    tokId := fun t => if t = 1 then "$" else if t = 3 then "error" else "INVALID",
    errorType := 3,
    EOF := 1 }

/-- A freshly reset parser whose lookahead is the end of input. -/
def freshOnEof : Parser :=
  { stack := ⟨[0], [Attrib.nil]⟩, nextToken := some (eofTok 0), pos := 0 }

/-- The `j`-th token that the resynchronisation of `Parser.Error` looks at:
the lookahead `tok` it starts with for `j = 0`, then the tokens that `Scan`
returns. -/
def resyncToken (tok : Token) (scanner : Scanner) : Nat → Token
  | 0 => tok
  | j + 1 => scanner.src (scanner.pos + j)

/-- Whether the fault is an explicit `panic` of `parser.go`. -/
def Fault.isPanic : Fault → Bool
  | .panic _ => true
  | _ => false

/-- A parser over `astxTables` at the end of the parse of `a`: the statement
list is on the stack in state 1 and the lookahead is the end of input. -/
def beforeAccept : Parser :=
  { stack := ⟨[0, 1], [Attrib.nil,
      Attrib.node "StmtList" [Attrib.node "Stmt" [Attrib.tok (idTok "a" 0)]]]⟩,
    nextToken := some (eofTok 1), pos := 0 }

/-- A parser over `astxTables` at the start of the parse of `a`. -/
def beforeShift : Parser :=
  { stack := ⟨[0], [Attrib.nil]⟩, nextToken := some (idTok "a" 0), pos := 0 }

/-- The scanner of the input `a` after its first token has been scanned. -/
def afterFirstToken : Scanner :=
  { src := (scannerOf [idTok "a" 0]).src, pos := 1 }

/-- An implementation of the package `ast` whose `NewStmt` rejects the
identifier `bad` and builds labelled trees otherwise. -/
def strictAst : Ast :=
  { NewStmtList := fun x => .ok (Attrib.node "StmtList" [x], none),
    AppendStmt := fun l x =>
      match l with
      | Attrib.node "StmtList" kids => .ok (Attrib.node "StmtList" (kids ++ [x]), none)
      | _ => .ok (Attrib.nil, some "not a StmtList"),
    NewStmt := fun x =>
      match x with
      | Attrib.tok t =>
        if t.Lit = "bad" then .ok (Attrib.nil, some "bad statement")
        else .ok (Attrib.node "Stmt" [x], none)
      | _ => .ok (Attrib.node "Stmt" [x], none) }

/-- LR(1) tables of the grammar `astx` extended by the production
`Stmt : error`, with the semantic actions of `strictAst` and the token types
`0 = INVALID`, `1 = $`, `2 = id`, `3 = error`.  States 0 and 1 can recover:
they shift the `error` pseudo-token to state 5. -/
def strictTables : Tables :=
  { actionTab :=
      [ { canRecover := true,
          actions := [none, none, some (action.shift 3), some (action.shift 5)] },
        { canRecover := true,
          actions := [none, some (action.accept true), some (action.shift 3),
                      some (action.shift 5)] },
        { canRecover := false,
          actions := [none, some (action.reduce 1), some (action.reduce 1),
                      some (action.reduce 1)] },
        { canRecover := false,
          actions := [none, some (action.reduce 3), some (action.reduce 3),
                      some (action.reduce 3)] },
        { canRecover := false,
          actions := [none, some (action.reduce 2), some (action.reduce 2),
                      some (action.reduce 2)] },
        { canRecover := false,
          actions := [none, some (action.reduce 4), some (action.reduce 4),
                      some (action.reduce 4)] } ],
    gotoTab := [[-1, 1, 2], [-1, -1, 4], [-1, -1, -1], [-1, -1, -1], [-1, -1, -1],
                [-1, -1, -1]],
    productionsTable := productionsTable strictAst ++
      [ { String := "Stmt : error", Id := "Stmt", NTType := 2, Index := 4, NumSymbols := 1,
          ReduceFunc := fun X =>
            match index X 0 with
            | .error f => .error f
            | .ok x0 => .ok (Attrib.node "Stmt" [x0], none) } ],
    tokId := fun t =>
      if t = 1 then "$" else if t = 2 then "id" else if t = 3 then "error" else "INVALID",
    errorType := 3,
    EOF := 1 }

/-- The parser over `strictTables` in the parse of the input `bad`, after the
token has been shifted: the recoverable state 0 is on the stack. -/
def afterShiftBad : Parser :=
  { stack := ⟨[0, 3], [Attrib.nil, Attrib.tok (idTok "bad" 0)]⟩,
    nextToken := some (eofTok 1), pos := 0 }

/-- The scanner of the input `bad` after two tokens have been scanned. -/
def afterBad : Scanner :=
  { src := (scannerOf [idTok "bad" 0]).src, pos := 2 }

/-- A table whose only state reduces, on every token, by a production with one
symbol whose semantic action always fails: the reduction pops the bottom entry
of the stack. -/
def emptyingTables : Tables :=
  { actionTab :=
      [ { canRecover := false,
          actions := [none, some (action.reduce 0), some (action.reduce 0)] } ],
    gotoTab := [[0]],
    productionsTable :=
      [ { String := "S : id", Id := "S", NTType := 0, Index := 0, NumSymbols := 1,
          ReduceFunc := fun _ => .ok (Attrib.nil, some "rejected") } ],
    tokId := fun t => if t = 1 then "$" else if t = 2 then "id" else "INVALID",
    errorType := 0,
    EOF := 1 }

/-- A variant of `recoveryTables` in which the error state 2 has no action on
the end of input: recovery that finds no `;` fails. -/
def noResyncTables : Tables :=
  { actionTab :=
      [ { canRecover := true,
          actions := [none, none, some (action.shift 1), some (action.shift 2), none] },
        { canRecover := false,
          actions := [none, none, none, none, some (action.shift 3)] },
        { canRecover := false,
          actions := [none, none, none, none, some (action.shift 3)] },
        { canRecover := false,
          actions := [none, some (action.accept true), none, none, none] } ],
    gotoTab := [[], [], [], []],
    productionsTable := [],
    tokId := fun t =>
      if t = 1 then "$" else if t = 2 then "id" else if t = 3 then "error"
      else if t = 4 then ";" else "INVALID",
    errorType := 3,
    EOF := 1 }

/-- The input `a b c` after its first two tokens have been scanned. -/
def restWithoutSemi : Scanner :=
  { src := (scannerOf [idTok "a" 0, idTok "b" 1, idTok "c" 2]).src, pos := 2 }

/-- A table with a cycle: state 0 shifts `id` to state 1, and state 1 reduces
by a production with one symbol whose goto from state 0 is state 1 again and
whose semantic action returns its argument. -/
def cyclicTables : Tables :=
  { actionTab :=
      [ { canRecover := false, actions := [none, none, some (action.shift 1)] },
        { canRecover := false,
          actions := [none, some (action.reduce 0), some (action.reduce 0)] } ],
    gotoTab := [[1], [-1]],
    productionsTable :=
      [ { String := "S : id", Id := "S", NTType := 0, Index := 0, NumSymbols := 1,
          ReduceFunc := fun X =>
            match index X 0 with
            | .error f => .error f
            | .ok x0 => .ok (x0, none) } ],
    tokId := fun t => if t = 1 then "$" else if t = 2 then "id" else "INVALID",
    errorType := 0,
    EOF := 1 }

/-- The parser over `cyclicTables` after `a` has been shifted. -/
def inCycle : Parser :=
  { stack := ⟨[0, 1], [Attrib.nil, Attrib.tok (idTok "a" 0)]⟩,
    nextToken := some (eofTok 1), pos := 0 }

/-- The parser over `astxTables` in the parse of `a` after the reduction
`Stmt : id`. -/
def afterStmt : Parser :=
  { stack := ⟨[0, 2], [Attrib.nil, Attrib.node "Stmt" [Attrib.tok (idTok "a" 0)]]⟩,
    nextToken := some (eofTok 1), pos := 0 }

/-- The scanner of the input `a` after two tokens have been scanned. -/
def afterSecondToken : Scanner :=
  { src := (scannerOf [idTok "a" 0]).src, pos := 2 }

/-- The parser with its field `pos` (which `parser.go` never reads or writes)
set to `q`. -/
def Parser.withPos (P : Parser) (q : Int) : Parser := { P with pos := q }

/-- The step with the field `pos` of its parser set to `q`. -/
def Step.withPos : Step → Int → Step
  | .next P scanner, q => .next (P.withPos q) scanner
  | .accepted res P scanner, q => .accepted res (P.withPos q) scanner
  | .failed msg P scanner, q => .failed msg (P.withPos q) scanner

/-- The result of `Parse` with the field `pos` of its parser set to `q`. -/
def ParseResult.withPos (r : ParseResult) (q : Int) : ParseResult :=
  { r with P := r.P.withPos q }

/-- The result of `Error` with the field `pos` of its parser set to `q`. -/
def ErrorResult.withPos (r : ErrorResult) (q : Int) : ErrorResult :=
  { r with P := r.P.withPos q }

/-! ## The stack -/

theorem index_natCast {α : Type} (xs : List α) (i : Nat) :
    index xs (i : Int) = match xs[i]? with
      | some x => .ok x
      | none => .error .indexOutOfRange := by
  unfold index
  have h : ¬ ((i : Int) < 0) := by omega
  simp [h]

theorem index_ok_iff {α : Type} (xs : List α) (i : Int) (x : α) :
    index xs i = .ok x ↔ 0 ≤ i ∧ xs[i.toNat]? = some x := by
  unfold index
  by_cases h : i < 0
  · simp [h]
  · simp only [h, if_false]
    have h0 : 0 ≤ i := by omega
    cases hx : xs[i.toNat]? with
    | none => simp [h0]
    | some y => simp [h0]

theorem popN_eq (st : stack) (n : Nat) (hn : n ≤ st.state.length)
    (hlen : st.attrib.length = st.state.length) :
    st.popN (n : Int) = .ok (st.attrib.drop (st.state.length - n),
      { state := st.state.take (st.state.length - n),
        attrib := st.attrib.take (st.state.length - n) }) := by
  unfold stack.popN
  have h1 : ¬ (((st.state.length : Int) - (n : Int) < 0) ∨
      ((st.state.length : Int) < (st.state.length : Int) - (n : Int)) ∨
      ((st.attrib.length : Int) < (st.state.length : Int))) := by
    rw [hlen]
    omega
  have h2 : ((st.state.length : Int) - (n : Int)).toNat = st.state.length - n := by omega
  simp only [h1, if_false, h2, Int.toNat_ofNat]
  rw [← hlen, List.take_length]

/-- C1: on a stack of depth `d` (both sequences of length `d`) and for every
count with `0 ≤ count ≤ d`, `popN(count)` returns the attributes of the top
`count` entries in bottom-to-top order (the `i`-th returned attribute is the
one at stack index `d - count + i`, the last one is the attribute of the former
top) and leaves the first `d - count` states and attributes. -/
theorem popN_returns_top_attributes (st : stack) (d : Nat) (count : Int)
    (hs : st.state.length = d) (ha : st.attrib.length = d)
    (h0 : 0 ≤ count) (hd : count ≤ (d : Int)) :
    ∃ popped rest,
      st.popN count = .ok (popped, rest) ∧
      popped.length = count.toNat ∧
      (∀ i, i < count.toNat → popped[i]? = st.attrib[d - count.toNat + i]?) ∧
      (0 < count → popped.getLast? = st.attrib.getLast?) ∧
      st.attrib = rest.attrib ++ popped ∧
      rest.state = st.state.take (d - count.toNat) ∧
      rest.attrib = st.attrib.take (d - count.toNat) ∧
      rest.state.length = d - count.toNat ∧
      rest.attrib.length = d - count.toNat := by
  obtain ⟨n, rfl⟩ := Int.eq_ofNat_of_zero_le h0
  have hn : n ≤ d := by omega
  refine ⟨st.attrib.drop (d - n), ⟨st.state.take (d - n), st.attrib.take (d - n)⟩, ?_, ?_, ?_, ?_, ?_, ?_, ?_, ?_, ?_⟩
  · have := popN_eq st n (by omega) (by omega)
    rw [hs] at this
    exact this
  · simp [ha]
    omega
  · intro i _
    simp
  · intro hpos
    have hpos' : 0 < n := by omega
    rw [List.getLast?_drop]
    have : ¬ (st.attrib.length ≤ d - n) := by omega
    simp [this]
  · simp
  · simp
  · simp
  · simp [hs]
  · simp [ha]

/-- Witness for C1: popping two entries off a stack of depth three. -/
theorem popN_returns_top_attributes_witness :
    ∃ popped rest,
      (stack.mk [0, 4, 7] [Attrib.nil, Attrib.node "a" [], Attrib.node "b" []]).popN 2
        = .ok (popped, rest) ∧
      popped.length = (2 : Int).toNat ∧
      (∀ i, i < (2 : Int).toNat → popped[i]? =
        [Attrib.nil, Attrib.node "a" [], Attrib.node "b" []][3 - (2 : Int).toNat + i]?) ∧
      ((0 : Int) < 2 → popped.getLast? =
        [Attrib.nil, Attrib.node "a" [], Attrib.node "b" []].getLast?) ∧
      [Attrib.nil, Attrib.node "a" [], Attrib.node "b" []] = rest.attrib ++ popped ∧
      rest.state = [0, 4, 7].take (3 - (2 : Int).toNat) ∧
      rest.attrib = [Attrib.nil, Attrib.node "a" [], Attrib.node "b" []].take (3 - (2 : Int).toNat) ∧
      rest.state.length = 3 - (2 : Int).toNat ∧
      rest.attrib.length = 3 - (2 : Int).toNat :=
  popN_returns_top_attributes
    (stack.mk [0, 4, 7] [Attrib.nil, Attrib.node "a" [], Attrib.node "b" []]) 3 2
    rfl rfl (by decide) (by decide)

theorem top_take (states : List Int) (attribs : List Attrib) (k : Nat) (s : Int)
    (hk : 0 < k) (hkl : k ≤ states.length) (h : states[k - 1]? = some s) :
    (stack.mk (states.take k) attribs).top = .ok s := by
  unfold stack.top
  rw [index_ok_iff]
  have h1 : (states.take k).length = k := by simp [hkl]
  simp only [h1]
  have h2 : ((k : Int) - 1).toNat = k - 1 := by omega
  rw [h2, List.getElem?_take]
  constructor
  · omega
  · simp [hk, h]

/-! ## The reduce step -/

/-- C2: a reduce step on production `p` over a stack of depth `d` pops exactly
`NumSymbols` entries, hands their attributes to `ReduceFunc` in bottom-to-top
order, and when the semantic action succeeds pushes `(gotoTab[s][NTType],
result)` with `s` the state on top after the pop; the lookahead and the scanner
are untouched and the depth becomes `d + 1 - NumSymbols`.  The same holds for
the whole loop iteration when the reduce action is the one found for the
lookahead. -/
theorem reduce_step (T : Tables) (fuel : Nat) (P : Parser) (scanner : Scanner)
    (p : Int) (prod : ProdTabEntry) (d n : Nat) (s nextState : Int)
    (gotoRow : List Int) (result : Attrib)
    (hs : P.stack.state.length = d) (ha : P.stack.attrib.length = d)
    (hprod : index T.productionsTable p = .ok prod)
    (hnum : prod.NumSymbols = (n : Int)) (hn : n < d)
    (hred : prod.ReduceFunc (P.stack.attrib.drop (d - n)) = .ok (result, none))
    (htop : P.stack.state[d - n - 1]? = some s)
    (hrow : index T.gotoTab s = .ok gotoRow)
    (hgoto : index gotoRow prod.NTType = .ok nextState) :
    ∃ P1 : Parser,
      Parse.dispatch T P scanner (action.reduce p) = .ok (Step.next P1 scanner) ∧
      P.stack.popN prod.NumSymbols =
        .ok (P.stack.attrib.drop (d - n),
             stack.mk (P.stack.state.take (d - n)) (P.stack.attrib.take (d - n))) ∧
      (P.stack.attrib.drop (d - n)).length = n ∧
      (stack.mk (P.stack.state.take (d - n)) (P.stack.attrib.take (d - n))).top = .ok s ∧
      P1.stack.state = P.stack.state.take (d - n) ++ [nextState] ∧
      P1.stack.attrib = P.stack.attrib.take (d - n) ++ [result] ∧
      P1.nextToken = P.nextToken ∧
      ((P1.stack.state.length : Int) = (d : Int) + 1 - prod.NumSymbols) ∧
      ((P1.stack.attrib.length : Int) = (d : Int) + 1 - prod.NumSymbols) ∧
      (lookahead T P = .ok (some (action.reduce p)) →
        Parse.iter T fuel P scanner = .ok (Step.next P1 scanner)) := by
  have hpop : P.stack.popN prod.NumSymbols =
      .ok (P.stack.attrib.drop (d - n),
           stack.mk (P.stack.state.take (d - n)) (P.stack.attrib.take (d - n))) := by
    rw [hnum]
    have := popN_eq P.stack n (by omega) (by omega)
    rw [hs] at this
    exact this
  have htop1 : (stack.mk (P.stack.state.take (d - n)) (P.stack.attrib.take (d - n))).top
      = .ok s :=
    top_take P.stack.state _ (d - n) s (by omega) (by omega) htop
  have hdisp : Parse.dispatch T P scanner (action.reduce p) = .ok (Step.next
      { P with stack := (stack.mk (P.stack.state.take (d - n))
          (P.stack.attrib.take (d - n))).push nextState result } scanner) := by
    simp only [Parse.dispatch, hprod, hpop, hred, htop1, hrow, hgoto]
  refine ⟨_, hdisp, hpop, ?_, htop1, rfl, rfl, rfl, ?_, ?_, ?_⟩
  · simp [ha]
    omega
  · simp [stack.push, hs, hnum]
    omega
  · simp [stack.push, ha, hnum]
    omega
  · intro hla
    simp only [Parse.iter, hla, hdisp]

/-- Witness for C2: the reduction `Stmt : id` in the parse of `a`. -/
theorem reduce_step_witness :
    ∃ P1 : Parser,
      Parse.dispatch astxTables afterShift (scannerOf [idTok "a" 0]) (action.reduce 3)
        = .ok (Step.next P1 (scannerOf [idTok "a" 0])) ∧
      P1.stack.state = [0, 2] ∧
      P1.stack.attrib = [Attrib.nil, Attrib.node "Stmt" [Attrib.tok (idTok "a" 0)]] ∧
      P1.nextToken = some (eofTok 1) :=
  let ⟨P1, h1, _, _, _, h5, h6, h7, _⟩ :=
    reduce_step astxTables 0 afterShift (scannerOf [idTok "a" 0]) 3
      ((productionsTable sampleAst).get ⟨3, by decide⟩) 2 1 0 2 [-1, 1, 2]
      (Attrib.node "Stmt" [Attrib.tok (idTok "a" 0)])
      rfl rfl rfl rfl (by decide) rfl rfl rfl rfl
  ⟨P1, h1, h5, h6, h7⟩

/-! ## The recovery state -/

theorem peek_of_some (st : stack) (n : Nat) (s : Int) (h : st.state[n]? = some s) :
    st.peek (n : Int) = .ok s := by
  unfold stack.peek
  rw [index_natCast, h]

theorem peek_of_none (st : stack) (n : Nat) (h : st.state[n]? = none) :
    st.peek (n : Int) = .error .indexOutOfRange := by
  unfold stack.peek
  rw [index_natCast, h]

theorem top_eq (st : stack) :
    st.top = match st.state[st.state.length - 1]? with
      | some x => if 1 ≤ st.state.length then .ok x else .error .indexOutOfRange
      | none => .error .indexOutOfRange := by
  unfold stack.top index
  by_cases h : st.state.length = 0
  · have e : st.state = [] := List.length_eq_zero.mp h
    simp [e]
  · have h1 : ¬ ((st.state.length : Int) - 1 < 0) := by omega
    have h2 : ((st.state.length : Int) - 1).toNat = st.state.length - 1 := by omega
    have h3 : 1 ≤ st.state.length := by omega
    simp only [h1, if_false, h2, h3, if_true]
    cases st.state[st.state.length - 1]? <;> rfl

theorem top_ok_iff (st : stack) (s : Int) :
    st.top = .ok s ↔ 1 ≤ st.state.length ∧ st.state[st.state.length - 1]? = some s := by
  rw [top_eq]
  cases h : st.state[st.state.length - 1]? with
  | none => simp
  | some x =>
    by_cases h1 : 1 ≤ st.state.length
    · simp [h1]
    · simp [h1]

theorem canRecoverAt_eq_some (T : Tables) (st : stack) (j : Nat) (b : Bool) :
    canRecoverAt T st j = some b ↔
      ∃ s row, st.state[j]? = some s ∧ index T.actionTab s = .ok row ∧ row.canRecover = b := by
  unfold canRecoverAt
  cases hs : st.state[j]? with
  | none => simp
  | some s =>
    cases hr : index T.actionTab s with
    | error f => simp [hr]
    | ok row => simp [hr]

theorem firstRecoveryState_loop_sound (T : Tables) (st : stack) :
    ∀ (n : Nat) (c : Bool) (rs : Int) (b : Bool),
      firstRecoveryState.loop T st n c = .ok (rs, b) →
      ∃ r : Nat, rs = (r : Int) ∧ r ≤ n ∧
        (∀ j, r < j → j < n → canRecoverAt T st j = some false) ∧
        ((r = n ∧ b = c) ∨ (r < n ∧ c = false ∧ canRecoverAt T st r = some b)) ∧
        (b = false → r = 0) := by
  intro n
  induction n with
  | zero =>
    intro c rs b h
    simp only [firstRecoveryState.loop, Except.ok.injEq, Prod.mk.injEq] at h
    obtain ⟨h1, h2⟩ := h
    refine ⟨0, ?_, le_refl _, ?_, Or.inl ⟨rfl, h2.symm⟩, fun _ => rfl⟩
    · simpa using h1.symm
    · intro j _ hj
      omega
  | succ n ih =>
    intro c rs b h
    unfold firstRecoveryState.loop at h
    by_cases hc : c = true
    · simp only [hc, if_true, Except.ok.injEq, Prod.mk.injEq] at h
      obtain ⟨h1, h2⟩ := h
      refine ⟨n + 1, h1.symm, le_refl _, ?_, Or.inl ⟨rfl, ?_⟩, ?_⟩
      · intro j h3 h4
        omega
      · rw [hc]
        exact h2.symm
      · intro hb
        rw [hb] at h2
        exact absurd h2 (by decide)
    · have hc0 : c = false := by simpa using hc
      simp only [hc0, Bool.false_eq_true, if_false] at h
      cases hs : st.state[n]? with
      | none => simp [peek_of_none st n hs] at h
      | some s =>
        simp only [peek_of_some st n s hs] at h
        cases hr : index T.actionTab s with
        | error f => simp [hr] at h
        | ok row =>
          simp only [hr] at h
          obtain ⟨r, e1, e2, e3, e4, e5⟩ := ih _ _ _ h
          have hn : canRecoverAt T st n = some row.canRecover :=
            (canRecoverAt_eq_some T st n _).mpr ⟨s, row, hs, hr, rfl⟩
          refine ⟨r, e1, by omega, ?_, Or.inr ⟨?_, hc0, ?_⟩, e5⟩
          · intro j h3 h4
            by_cases hj : j = n
            · subst hj
              rcases e4 with ⟨e6, _⟩ | ⟨_, e7, _⟩
              · omega
              · rw [hn, e7]
            · exact e3 j h3 (by omega)
          · omega
          · rcases e4 with ⟨e6, e7⟩ | ⟨_, _, e8⟩
            · rw [e6, hn, e7]
            · exact e8

theorem firstRecoveryState_loop_complete (T : Tables) (st : stack) :
    ∀ (n : Nat) (c : Bool) (r : Nat) (b : Bool), r ≤ n →
      (∀ j, r < j → j < n → canRecoverAt T st j = some false) →
      ((r = n ∧ b = c) ∨ (r < n ∧ c = false ∧ canRecoverAt T st r = some b)) →
      (b = false → r = 0) →
      firstRecoveryState.loop T st n c = .ok ((r : Int), b) := by
  intro n
  induction n with
  | zero =>
    intro c r b h1 _ h3 _
    rcases h3 with ⟨e1, e2⟩ | ⟨e1, _⟩
    · subst e1
      subst e2
      simp [firstRecoveryState.loop]
    · omega
  | succ n ih =>
    intro c r b h1 h2 h3 h4
    unfold firstRecoveryState.loop
    by_cases hc : c = true
    · rcases h3 with ⟨e1, e2⟩ | ⟨_, e2, _⟩
      · subst e1
        subst e2
        simp [hc]
      · rw [hc] at e2
        exact absurd e2 (by decide)
    · have hc0 : c = false := by simpa using hc
      rcases h3 with ⟨e1, e2⟩ | ⟨e1, _, e3⟩
      · rw [hc0] at e2
        have := h4 e2
        omega
      · simp only [hc0, Bool.false_eq_true, if_false]
        by_cases hr : r = n
        · subst hr
          obtain ⟨s, row, f1, f2, f3⟩ := (canRecoverAt_eq_some T st r b).mp e3
          simp only [peek_of_some st r s f1, f2]
          exact ih _ _ _ (le_refl _) (fun j g1 g2 => by omega) (Or.inl ⟨rfl, f3.symm⟩) h4
        · have hn := h2 n (by omega) (by omega)
          obtain ⟨s, row, f1, f2, f3⟩ := (canRecoverAt_eq_some T st n false).mp hn
          simp only [peek_of_some st n s f1, f2]
          exact ih _ _ _ (by omega) (fun j g1 g2 => h2 j g1 (by omega))
            (Or.inr ⟨by omega, f3, e3⟩) h4

theorem firstRecoveryState_ok_iff (T : Tables) (P : Parser) (rs : Int) (b : Bool) :
    firstRecoveryState T P = .ok (rs, b) ↔
      ∃ r : Nat, rs = (r : Int) ∧ r < P.stack.state.length ∧
        canRecoverAt T P.stack r = some b ∧
        (∀ j, r < j → j < P.stack.state.length → canRecoverAt T P.stack j = some false) ∧
        (b = false → r = 0) := by
  have hti : P.stack.topIndex.toNat = P.stack.state.length - 1 := by
    unfold stack.topIndex
    omega
  constructor
  · intro h
    unfold firstRecoveryState at h
    cases ht : P.stack.top with
    | error f => simp [ht] at h
    | ok s =>
      simp only [ht] at h
      obtain ⟨hd, hs⟩ := (top_ok_iff _ _).mp ht
      cases hr : index T.actionTab s with
      | error f => simp [hr] at h
      | ok row =>
        simp only [hr, hti] at h
        obtain ⟨r, e1, e2, e3, e4, e5⟩ := firstRecoveryState_loop_sound T P.stack _ _ _ _ h
        have hn : canRecoverAt T P.stack (P.stack.state.length - 1) = some row.canRecover :=
          (canRecoverAt_eq_some T P.stack _ _).mpr ⟨s, row, hs, hr, rfl⟩
        refine ⟨r, e1, by omega, ?_, ?_, e5⟩
        · rcases e4 with ⟨e6, e7⟩ | ⟨_, _, e8⟩
          · rw [e6, hn, e7]
          · exact e8
        · intro j h3 h4
          by_cases hj : j = P.stack.state.length - 1
          · rcases e4 with ⟨e6, _⟩ | ⟨_, e7, _⟩
            · omega
            · rw [hj, hn, e7]
          · exact e3 j h3 (by omega)
  · rintro ⟨r, e1, e2, e3, e4, e5⟩
    subst e1
    unfold firstRecoveryState
    have hc : ∃ c, canRecoverAt T P.stack (P.stack.state.length - 1) = some c ∧
        ((r = P.stack.state.length - 1 ∧ b = c) ∨
          (r < P.stack.state.length - 1 ∧ c = false)) := by
      by_cases hr : r = P.stack.state.length - 1
      · exact ⟨b, by rw [← hr]; exact e3, Or.inl ⟨hr, rfl⟩⟩
      · exact ⟨false, e4 _ (by omega) (by omega), Or.inr ⟨by omega, rfl⟩⟩
    obtain ⟨c, hc1, hc2⟩ := hc
    obtain ⟨s, row, f1, f2, f3⟩ := (canRecoverAt_eq_some T P.stack _ c).mp hc1
    have ht : P.stack.top = .ok s := (top_ok_iff _ _).mpr ⟨by omega, f1⟩
    simp only [ht, f2, hti, f3]
    apply firstRecoveryState_loop_complete T P.stack _ _ _ _ (by omega)
    · intro j g1 g2
      exact e4 j g1 (by omega)
    · rcases hc2 with ⟨g1, g2⟩ | ⟨g1, g2⟩
      · exact Or.inl ⟨g1, g2⟩
      · exact Or.inr ⟨g1, g2, e3⟩
    · exact e5

theorem firstRecoveryState_loop_total (T : Tables) (st : stack) :
    ∀ (n : Nat) (c : Bool), (∀ j, j < n → (canRecoverAt T st j).isSome = true) →
      ∃ r, firstRecoveryState.loop T st n c = .ok r := by
  intro n
  induction n with
  | zero =>
    intro c _
    exact ⟨_, rfl⟩
  | succ n ih =>
    intro c h
    unfold firstRecoveryState.loop
    by_cases hc : c = true
    · simp [hc]
    · have hc0 : c = false := by simpa using hc
      simp only [hc0, Bool.false_eq_true, if_false]
      have hn := h n (by omega)
      obtain ⟨b, hb⟩ := Option.isSome_iff_exists.mp hn
      obtain ⟨s, row, f1, f2, _⟩ := (canRecoverAt_eq_some T st n b).mp hb
      simp only [peek_of_some st n s f1, f2]
      exact ih _ (fun j hj => h j (by omega))

/-- C6: `firstRecoveryState` returns `(rs, true)` exactly when `rs` is the
largest stack index (0 = bottom) whose state has `canRecover = true`, and
`(0, false)` exactly when every stack index, the bottom included, has a state
with `canRecover = false`; a `false` result always comes with index 0.  A state
has the flag `b` when it is a row of `actionTab` whose `canRecover` is `b`; on a
non-empty stack all of whose states are rows of the table the function always
returns. -/
theorem firstRecoveryState_spec (T : Tables) (P : Parser) :
    (∀ rs : Int, firstRecoveryState T P = .ok (rs, true) ↔
      (0 ≤ rs ∧ rs.toNat < P.stack.state.length ∧
        canRecoverAt T P.stack rs.toNat = some true ∧
        ∀ j, rs.toNat < j → j < P.stack.state.length →
          canRecoverAt T P.stack j = some false)) ∧
    (firstRecoveryState T P = .ok (0, false) ↔
      (1 ≤ P.stack.state.length ∧
        ∀ j, j < P.stack.state.length → canRecoverAt T P.stack j = some false)) ∧
    (∀ rs : Int, firstRecoveryState T P = .ok (rs, false) → rs = 0) ∧
    ((1 ≤ P.stack.state.length ∧
        ∀ j, j < P.stack.state.length → (canRecoverAt T P.stack j).isSome = true) →
      ∃ rs b, firstRecoveryState T P = .ok (rs, b)) := by
  refine ⟨?_, ?_, ?_, ?_⟩
  · intro rs
    rw [firstRecoveryState_ok_iff]
    constructor
    · rintro ⟨r, e1, e2, e3, e4, _⟩
      subst e1
      exact ⟨by omega, by simpa using e2, by simpa using e3, by simpa using e4⟩
    · rintro ⟨h0, h1, h2, h3⟩
      exact ⟨rs.toNat, by omega, h1, h2, h3, fun h => absurd h (by decide)⟩
  · rw [firstRecoveryState_ok_iff]
    constructor
    · rintro ⟨r, e1, e2, e3, e4, e5⟩
      have hr : r = 0 := e5 rfl
      subst hr
      refine ⟨by omega, ?_⟩
      intro j hj
      by_cases h0 : j = 0
      · rw [h0]
        exact e3
      · exact e4 j (by omega) hj
    · rintro ⟨h1, h2⟩
      exact ⟨0, rfl, by omega, h2 0 (by omega), fun j _ hj => h2 j hj, fun _ => rfl⟩
  · intro rs h
    obtain ⟨r, e1, _, _, _, e5⟩ := (firstRecoveryState_ok_iff T P rs false).mp h
    rw [e1, e5 rfl]
    rfl
  · rintro ⟨h1, h2⟩
    have hn := h2 (P.stack.state.length - 1) (by omega)
    obtain ⟨b, hb⟩ := Option.isSome_iff_exists.mp hn
    obtain ⟨s, row, f1, f2, _⟩ := (canRecoverAt_eq_some T P.stack _ b).mp hb
    have ht : P.stack.top = .ok s := (top_ok_iff _ _).mpr ⟨h1, f1⟩
    obtain ⟨r, hr⟩ := firstRecoveryState_loop_total T P.stack P.stack.topIndex.toNat
      row.canRecover (fun j hj => h2 j (by unfold stack.topIndex at hj; omega))
    refine ⟨r.1, r.2, ?_⟩
    unfold firstRecoveryState
    simp only [ht, f2, hr]

/-! ## Error recovery: resynchronisation -/

theorem lookahead_congr (T : Tables) (P Q : Parser) (hs : P.stack = Q.stack)
    (ht : P.nextToken = Q.nextToken) : lookahead T P = lookahead T Q := by
  unfold lookahead
  rw [hs, ht]

theorem Error_continues_true (T : Tables) (recovered : Bool) (P : Parser) :
    Error.continues T recovered P = .ok true ↔
      recovered = false ∧ ∃ tok, P.nextToken = some tok ∧ tok.Typ ≠ T.EOF := by
  unfold Error.continues
  cases recovered with
  | true => simp
  | false =>
    cases P.nextToken with
    | none => simp
    | some tok => simp

theorem Error_continues_false (T : Tables) (recovered : Bool) (P : Parser) :
    Error.continues T recovered P = .ok false ↔
      recovered = true ∨ ∃ tok, P.nextToken = some tok ∧ tok.Typ = T.EOF := by
  unfold Error.continues
  cases recovered with
  | true => simp
  | false =>
    cases P.nextToken with
    | none => simp
    | some tok => simp

theorem Error_loop_frame (T : Tables) :
    ∀ (fuel : Nat) (recovered : Bool) (P : Parser) (scanner : Scanner)
      (r : Bool × Parser × Scanner),
      Error.loop T fuel recovered P scanner = .ok r →
      r.2.1.stack = P.stack ∧ r.2.1.pos = P.pos ∧ r.2.2.src = scanner.src ∧
      scanner.pos ≤ r.2.2.pos ∧
      (r.1 = true → recovered = true ∨ ∃ a, lookahead T r.2.1 = .ok (some a)) ∧
      (recovered = true → r = (true, P, scanner)) := by
  intro fuel
  induction fuel with
  | zero =>
    intro recovered P scanner r h
    unfold Error.loop at h
    cases hc : Error.continues T recovered P with
    | error f => simp [hc] at h
    | ok c =>
      cases c with
      | true => simp [hc] at h
      | false =>
        simp only [hc, Except.ok.injEq] at h
        subst h
        refine ⟨rfl, rfl, rfl, le_refl _, fun h1 => Or.inl h1, fun h1 => by simp [h1]⟩
  | succ fuel ih =>
    intro recovered P scanner r h
    unfold Error.loop at h
    cases hc : Error.continues T recovered P with
    | error f => simp [hc] at h
    | ok c =>
      cases c with
      | false =>
        simp only [hc, Except.ok.injEq] at h
        subst h
        refine ⟨rfl, rfl, rfl, le_refl _, fun h1 => Or.inl h1, fun h1 => by simp [h1]⟩
      | true =>
        simp only [hc] at h
        obtain ⟨hr0, _⟩ := (Error_continues_true T recovered P).mp hc
        cases hl : lookahead T { P with nextToken := some scanner.Scan.1 } with
        | error f => simp [hl] at h
        | ok a =>
          simp only [hl] at h
          obtain ⟨e1, e2, e3, e4, e5, e6⟩ := ih _ _ _ _ h
          refine ⟨e1, e2, e3, ?_, ?_, ?_⟩
          · have : scanner.Scan.2.pos = scanner.pos + 1 := rfl
            omega
          · intro hrt
            cases ha : a with
            | none =>
              rw [ha, hr0] at e5
              rcases e5 hrt with h1 | h1
              · simp at h1
              · exact Or.inr h1
            | some x =>
              rw [ha] at e6 hl
              have := e6 (by simp)
              right
              rw [this]
              exact ⟨x, hl⟩
          · intro hrt
            rw [hr0] at hrt
            exact absurd hrt (by decide)

theorem Error_loop_stop (T : Tables) (fuel : Nat) (recovered : Bool) (P : Parser)
    (scanner : Scanner) (h : Error.continues T recovered P = .ok false) :
    Error.loop T fuel recovered P scanner = .ok (recovered, P, scanner) := by
  cases fuel with
  | zero => simp only [Error.loop, h]
  | succ n => simp only [Error.loop, h]

theorem Error_loop_run (T : Tables) :
    ∀ (k fuel : Nat) (P : Parser) (scanner : Scanner) (tok : Token) (a : Option action),
      P.nextToken = some tok → tok.Typ ≠ T.EOF → k < fuel →
      (∀ j, j < k →
        lookahead T { P with nextToken := some (scanner.src (scanner.pos + j)) } = .ok none ∧
        (scanner.src (scanner.pos + j)).Typ ≠ T.EOF) →
      lookahead T { P with nextToken := some (scanner.src (scanner.pos + k)) } = .ok a →
      (a.isSome = true ∨ (scanner.src (scanner.pos + k)).Typ = T.EOF) →
      Error.loop T fuel false P scanner =
        .ok (a.isSome, { P with nextToken := some (scanner.src (scanner.pos + k)) },
             { scanner with pos := scanner.pos + k + 1 }) := by
  intro k
  induction k with
  | zero =>
    intro fuel P scanner tok a ht he hf _ hl hstop
    obtain ⟨f, rfl⟩ : ∃ f, fuel = f + 1 := ⟨fuel - 1, by omega⟩
    have hc : Error.continues T false P = .ok true :=
      (Error_continues_true T false P).mpr ⟨rfl, tok, ht, he⟩
    have hl0 : lookahead T { P with nextToken := some scanner.Scan.1 } = .ok a := hl
    simp only [Error.loop, hc, hl0]
    have hstop0 : Error.continues T (if a.isSome = true then true else false)
        { P with nextToken := some scanner.Scan.1 } = .ok false := by
      rw [Error_continues_false]
      rcases hstop with h1 | h1
      · left
        simp [h1]
      · right
        exact ⟨_, rfl, h1⟩
    rw [Error_loop_stop T f _ _ _ hstop0]
    cases a <;> rfl
  | succ k ih =>
    intro fuel P scanner tok a ht he hf hskip hl hstop
    obtain ⟨f, rfl⟩ : ∃ f, fuel = f + 1 := ⟨fuel - 1, by omega⟩
    have hc : Error.continues T false P = .ok true :=
      (Error_continues_true T false P).mpr ⟨rfl, tok, ht, he⟩
    obtain ⟨h0, h0e⟩ := hskip 0 (by omega)
    have hl0 : lookahead T { P with nextToken := some scanner.Scan.1 } = .ok none := h0
    simp only [Error.loop, hc, hl0]
    have hpos : ∀ j, scanner.Scan.2.pos + j = scanner.pos + (j + 1) := by
      intro j
      show scanner.pos + 1 + j = scanner.pos + (j + 1)
      omega
    have := ih f { P with nextToken := some scanner.Scan.1 } scanner.Scan.2
      scanner.Scan.1 a rfl h0e (by omega)
      (by
        intro j hj
        rw [hpos j]
        exact hskip (j + 1) (by omega))
      (by
        rw [hpos k]
        exact hl)
      (by
        rw [hpos k]
        exact hstop)
    simp only [Option.isSome_none, Bool.false_eq_true, if_false]
    rw [this, hpos k]
    rfl

/-! ## Error recovery: discarding stack entries -/

theorem popN_ok (st : stack) (items : Int) (popped : List Attrib) (rest : stack)
    (h : st.popN items = .ok (popped, rest)) :
    ∃ k : Nat, k ≤ st.state.length ∧ (k : Int) = (st.state.length : Int) - items ∧
      st.state.length ≤ st.attrib.length ∧
      rest.state = st.state.take k ∧ rest.attrib = st.attrib.take k ∧
      popped = (st.attrib.take st.state.length).drop k := by
  unfold stack.popN at h
  by_cases hb : ((st.state.length : Int) - items < 0) ∨
      ((st.state.length : Int) < (st.state.length : Int) - items) ∨
      ((st.attrib.length : Int) < (st.state.length : Int))
  · rw [if_pos hb] at h
    exact absurd h (by simp)
  · rw [if_neg hb] at h
    simp only [Except.ok.injEq, Prod.mk.injEq, Int.toNat_ofNat] at h
    obtain ⟨h1, h2⟩ := h
    refine ⟨((st.state.length : Int) - items).toNat, by omega, by omega, by omega, ?_, ?_, ?_⟩
    · rw [← h2]
    · rw [← h2]
    · rw [← h1]

theorem popNonRecoveryStates_ok (T : Tables) (P : Parser) (syms : List Attrib) (P0 : Parser)
    (h : popNonRecoveryStates T P = .ok (syms, P0)) :
    P0.nextToken = P.nextToken ∧ P0.pos = P.pos ∧
    ((firstRecoveryState T P = .ok (0, false) ∧ syms = [] ∧ P0 = P) ∨
     (∃ r : Nat, firstRecoveryState T P = .ok ((r : Int), true) ∧
        r < P.stack.state.length ∧ P.stack.state.length ≤ P.stack.attrib.length ∧
        P0.stack.state = P.stack.state.take (r + 1) ∧
        P0.stack.attrib = P.stack.attrib.take (r + 1) ∧
        syms = (P.stack.attrib.take P.stack.state.length).drop (r + 1))) := by
  unfold popNonRecoveryStates at h
  cases hf : firstRecoveryState T P with
  | error f => simp [hf] at h
  | ok res =>
    obtain ⟨rs, b⟩ := res
    simp only [hf] at h
    cases b with
    | false =>
      simp only [Bool.false_eq_true, if_false, Except.ok.injEq, Prod.mk.injEq] at h
      obtain ⟨h1, h2⟩ := h
      obtain ⟨r, e1, _, _, _, e5⟩ := (firstRecoveryState_ok_iff T P rs false).mp hf
      have hr := e5 rfl
      subst hr
      subst h2
      refine ⟨rfl, rfl, Or.inl ⟨?_, h1.symm, rfl⟩⟩
      rw [e1]
      rfl
    | true =>
      simp only [if_true] at h
      obtain ⟨r, e1, e2, _, _, _⟩ := (firstRecoveryState_ok_iff T P rs true).mp hf
      cases hp : P.stack.popN (P.stack.topIndex - rs) with
      | error f => simp [hp] at h
      | ok res =>
        obtain ⟨popped, rest⟩ := res
        simp only [hp, Except.ok.injEq, Prod.mk.injEq] at h
        obtain ⟨h1, h2⟩ := h
        obtain ⟨k, k1, k2, k3, k4, k5, k6⟩ := popN_ok _ _ _ _ hp
        have hk : k = r + 1 := by
          unfold stack.topIndex at k2
          omega
        subst hk
        subst h2
        subst h1
        refine ⟨rfl, rfl, Or.inr ⟨r, ?_, e2, k3, k4, k5, k6⟩⟩
        rw [← e1]

theorem popNonRecoveryStates_of_recoveryState (T : Tables) (P : Parser) (r : Nat)
    (hlen : P.stack.attrib.length = P.stack.state.length)
    (hf : firstRecoveryState T P = .ok ((r : Int), true)) :
    popNonRecoveryStates T P =
      .ok (P.stack.attrib.drop (r + 1),
           { P with stack := stack.mk (P.stack.state.take (r + 1))
                                      (P.stack.attrib.take (r + 1)) }) := by
  obtain ⟨r1, e1, e2, _, _, _⟩ := (firstRecoveryState_ok_iff T P _ true).mp hf
  have hr : r1 = r := by omega
  subst hr
  unfold popNonRecoveryStates
  simp only [hf, if_true]
  have hti : P.stack.topIndex - (r1 : Int) = ((P.stack.state.length - 1 - r1 : Nat) : Int) := by
    unfold stack.topIndex
    omega
  rw [hti, popN_eq P.stack _ (by omega) hlen]
  have hk : P.stack.state.length - (P.stack.state.length - 1 - r1) = r1 + 1 := by omega
  rw [hk]

theorem popNonRecoveryStates_of_none (T : Tables) (P : Parser)
    (hf : firstRecoveryState T P = .ok (0, false)) :
    popNonRecoveryStates T P = .ok ([], P) := by
  unfold popNonRecoveryStates
  simp [hf]

/-! ## Error recovery: `Parser.Error` -/

theorem Error_enter_ok (T : Tables) (P : Parser) (err : Option String)
    (ea : parseError.Error Attrib) (P1 : Parser) (pushed : Bool)
    (h : Error.enter T P err = .ok (ea, P1, pushed)) :
    ∃ syms P0 s row,
      popNonRecoveryStates T P = .ok (syms, P0) ∧ P0.stack.top = .ok s ∧
      index T.actionTab s = .ok row ∧
      ea = { Err := err, ErrorToken := P.nextToken, ErrorSymbols := syms,
             ExpectedTokens := expectedFrom T 0 row.actions [] } ∧
      ((pushed = false ∧ P1 = P0 ∧ index row.actions T.errorType = .ok none) ∨
       (∃ t, pushed = true ∧ index row.actions T.errorType = .ok (some (action.shift t)) ∧
          P1 = { P0 with stack := P0.stack.push t (Attrib.error ea) })) := by
  unfold Error.enter at h
  cases hp : popNonRecoveryStates T P with
  | error f => simp [hp] at h
  | ok res =>
    obtain ⟨syms, P0⟩ := res
    simp only [hp] at h
    cases ht : P0.stack.top with
    | error f => simp [ht] at h
    | ok s =>
      simp only [ht] at h
      cases hr : index T.actionTab s with
      | error f => simp [hr] at h
      | ok row =>
        simp only [hr] at h
        cases he : index row.actions T.errorType with
        | error f => simp [he] at h
        | ok a =>
          simp only [he] at h
          cases a with
          | none =>
            simp only [Except.ok.injEq, Prod.mk.injEq] at h
            obtain ⟨h1, h2, h3⟩ := h
            exact ⟨syms, P0, s, row, rfl, ht, hr, h1.symm, Or.inl ⟨h3.symm, h2.symm, he⟩⟩
          | some act =>
            cases act with
            | accept b => simp at h
            | reduce p => simp at h
            | shift t =>
              simp only [Except.ok.injEq, Prod.mk.injEq] at h
              obtain ⟨h1, h2, h3⟩ := h
              refine ⟨syms, P0, s, row, rfl, ht, hr, h1.symm, Or.inr ⟨t, h3.symm, he, ?_⟩⟩
              rw [← h2, ← h1]

theorem Error_ok (T : Tables) (fuel : Nat) (P : Parser) (err : Option String)
    (scanner : Scanner) (r : ErrorResult) (h : Error T fuel P err scanner = .ok r) :
    ∃ P1 pushed,
      Error.enter T P err = .ok (r.errorAttrib, P1, pushed) ∧
      r.P.stack = P1.stack ∧ r.P.pos = P1.pos ∧
      r.scanner.src = scanner.src ∧ scanner.pos ≤ r.scanner.pos ∧
      (pushed = false → r.recovered = false ∧ r.P = P1 ∧ r.scanner = scanner) ∧
      (r.recovered = true → ∃ a, lookahead T r.P = .ok (some a)) := by
  unfold Error at h
  cases he : Error.enter T P err with
  | error f => simp [he] at h
  | ok res =>
    obtain ⟨ea, P1, pushed⟩ := res
    cases pushed with
    | false =>
      simp only [he, Except.ok.injEq] at h
      subst h
      exact ⟨P1, false, rfl, rfl, rfl, rfl, le_refl _, fun _ => ⟨rfl, rfl, rfl⟩,
        fun h1 => Bool.noConfusion h1⟩
    | true =>
      simp only [he] at h
      unfold Error.resync at h
      cases hl : lookahead T P1 with
      | error f => simp [hl] at h
      | ok a =>
        simp only [hl] at h
        cases hloop : Error.loop T fuel a.isSome P1 scanner with
        | error f => simp [hloop] at h
        | ok res =>
          obtain ⟨recovered, P2, scanner2⟩ := res
          simp only [hloop, Except.ok.injEq] at h
          subst h
          obtain ⟨e1, e2, e3, e4, e5, e6⟩ := Error_loop_frame T _ _ _ _ _ hloop
          refine ⟨P1, true, rfl, e1, e2, e3, e4, fun h1 => absurd h1 (by decide), ?_⟩
          intro hrec
          rcases e5 hrec with h1 | h1
          · have h2 := e6 h1
            simp only [Prod.mk.injEq] at h2
            obtain ⟨_, h3, _⟩ := h2
            show ∃ a, lookahead T P2 = .ok (some a)
            rw [h3, hl]
            exact Option.isSome_iff_exists.mp h1 |>.imp (fun x hx => by rw [hx])
          · exact h1

/-! ## The stack invariant -/

theorem top_ok_depth (st : stack) (s : Int) (h : st.top = .ok s) : 1 ≤ st.state.length :=
  ((top_ok_iff st s).mp h).1

theorem newError_ok (T : Tables) (P : Parser) (err : Option String) (m : ErrorMessage)
    (h : newError T P err = .ok m) :
    ∃ s tok, P.stack.top = .ok s ∧ P.nextToken = some tok ∧ m.state = s ∧ m.token = tok := by
  unfold newError at h
  cases ht : P.stack.top with
  | error f => simp [ht] at h
  | ok s =>
    simp only [ht] at h
    cases hn : P.nextToken with
    | none => simp [hn] at h
    | some tok =>
      simp only [hn] at h
      cases err with
      | some e =>
        simp only [Except.ok.injEq] at h
        subst h
        exact ⟨s, tok, rfl, rfl, rfl, rfl⟩
      | none =>
        simp only at h
        cases hr : index T.actionTab s with
        | error f => simp [hr] at h
        | ok row =>
          simp only [hr, Except.ok.injEq] at h
          subst h
          exact ⟨s, tok, rfl, rfl, rfl, rfl⟩

theorem Error_invariant (T : Tables) (fuel : Nat) (P : Parser) (err : Option String)
    (scanner : Scanner) (r : ErrorResult)
    (hlen : P.stack.state.length = P.stack.attrib.length)
    (h : Error T fuel P err scanner = .ok r) :
    r.P.stack.state.length = r.P.stack.attrib.length ∧ 1 ≤ r.P.stack.state.length ∧
    (r.recovered = true → 2 ≤ r.P.stack.state.length) := by
  obtain ⟨P1, pushed, h1, h2, _, _, _, h6, _⟩ := Error_ok T fuel P err scanner r h
  obtain ⟨syms, P0, s, row, g1, g2, _, _, g5⟩ := Error_enter_ok T P err _ _ _ h1
  have hd0 := top_ok_depth _ _ g2
  have hP0 : P0.stack.state.length = P0.stack.attrib.length := by
    obtain ⟨_, _, k⟩ := popNonRecoveryStates_ok T P syms P0 g1
    rcases k with ⟨_, _, k3⟩ | ⟨r0, _, k2, k3, k4, k5, _⟩
    · rw [k3]
      exact hlen
    · rw [k4, k5]
      simp only [List.length_take]
      omega
  rw [h2]
  rcases g5 with ⟨e1, e2, _⟩ | ⟨t, e1, _, e3⟩
  · rw [e2]
    refine ⟨hP0, hd0, ?_⟩
    intro hrec
    rw [(h6 e1).1] at hrec
    exact absurd hrec (by decide)
  · rw [e3]
    simp only [stack.push, List.length_append, List.length_singleton]
    omega

theorem dispatch_invariant (T : Tables) (P : Parser) (scanner : Scanner) (a : action)
    (step : Step) (hlen : P.stack.state.length = P.stack.attrib.length)
    (hd : 1 ≤ P.stack.state.length)
    (h : Parse.dispatch T P scanner a = .ok step) :
    step.parser.stack.state.length = step.parser.stack.attrib.length ∧
    (∀ P1 sc1, step = Step.next P1 sc1 → 2 ≤ P1.stack.state.length) ∧
    (1 ≤ step.parser.stack.state.length ∨
      (P.stack.state.length = 1 ∧ step.parser.stack.state.length = 0 ∧
        step.isAccepted = true ∧ ∃ b, a = action.accept b)) := by
  have hrest : ∀ (items : Int) (popped : List Attrib) (rest : stack),
      P.stack.popN items = .ok (popped, rest) →
      rest.state.length = rest.attrib.length ∧
        (rest.state.length : Int) = (P.stack.state.length : Int) - items := by
    intro items popped rest hp
    obtain ⟨k, k1, k2, k3, k4, k5, _⟩ := popN_ok _ _ _ _ hp
    rw [k4, k5]
    simp only [List.length_take]
    omega
  cases a with
  | accept b =>
    unfold Parse.dispatch at h
    cases hp : P.stack.popN 1 with
    | error f => simp [hp] at h
    | ok res =>
      obtain ⟨popped, rest⟩ := res
      simp only [hp] at h
      cases hi : index popped 0 with
      | error f => simp [hi] at h
      | ok x =>
        simp only [hi, Except.ok.injEq] at h
        subst h
        obtain ⟨r1, r2⟩ := hrest _ _ _ hp
        refine ⟨r1, ?_, ?_⟩
        · intro P1 sc1 hstep
          exact Step.noConfusion hstep
        · by_cases h2 : 2 ≤ P.stack.state.length
          · left
            show 1 ≤ rest.state.length
            omega
          · right
            refine ⟨by omega, ?_, rfl, b, rfl⟩
            show rest.state.length = 0
            omega
  | shift t =>
    unfold Parse.dispatch at h
    cases hn : P.nextToken with
    | none => simp [hn] at h
    | some tok =>
      simp only [hn, Except.ok.injEq] at h
      subst h
      refine ⟨?_, ?_, ?_⟩
      · simp only [Step.parser, stack.push, List.length_append, List.length_singleton]
        omega
      · intro P1 sc1 hstep
        simp only [Step.next.injEq] at hstep
        rw [← hstep.1]
        simp only [stack.push, List.length_append, List.length_singleton]
        omega
      · left
        simp only [Step.parser, stack.push, List.length_append, List.length_singleton]
        omega
  | reduce p =>
    unfold Parse.dispatch at h
    cases hprod : index T.productionsTable p with
    | error f => simp [hprod] at h
    | ok prod =>
      simp only [hprod] at h
      cases hp : P.stack.popN prod.NumSymbols with
      | error f => simp [hp] at h
      | ok res =>
        obtain ⟨popped, rest⟩ := res
        simp only [hp] at h
        obtain ⟨r1, _⟩ := hrest _ _ _ hp
        cases hred : prod.ReduceFunc popped with
        | error f => simp [hred] at h
        | ok out =>
          obtain ⟨attrib, e⟩ := out
          cases e with
          | some msg =>
            simp only [hred] at h
            cases hne : newError T { P with stack := rest } (some msg) with
            | error f => simp [hne] at h
            | ok m =>
              simp only [hne, Except.ok.injEq] at h
              subst h
              obtain ⟨s, _, hs, _⟩ := newError_ok _ _ _ _ hne
              have := top_ok_depth _ _ hs
              refine ⟨r1, ?_, Or.inl this⟩
              intro P1 sc1 hstep
              exact Step.noConfusion hstep
          | none =>
            simp only [hred] at h
            cases ht : rest.top with
            | error f => simp [ht] at h
            | ok s =>
              simp only [ht] at h
              have hd1 := top_ok_depth _ _ ht
              cases hg : index T.gotoTab s with
              | error f => simp [hg] at h
              | ok gotoRow =>
                simp only [hg] at h
                cases hn : index gotoRow prod.NTType with
                | error f => simp [hn] at h
                | ok nextState =>
                  simp only [hn, Except.ok.injEq] at h
                  subst h
                  refine ⟨?_, ?_, ?_⟩
                  · simp only [Step.parser, stack.push, List.length_append,
                      List.length_singleton]
                    omega
                  · intro P1 sc1 hstep
                    simp only [Step.next.injEq] at hstep
                    rw [← hstep.1]
                    simp only [stack.push, List.length_append, List.length_singleton]
                    omega
                  · left
                    simp only [Step.parser, stack.push, List.length_append,
                      List.length_singleton]
                    omega

theorem iter_invariant (T : Tables) (fuel : Nat) (P : Parser) (scanner : Scanner)
    (step : Step) (hlen : P.stack.state.length = P.stack.attrib.length)
    (hd : 1 ≤ P.stack.state.length)
    (h : Parse.iter T fuel P scanner = .ok step) :
    step.parser.stack.state.length = step.parser.stack.attrib.length ∧
    (∀ P1 sc1, step = Step.next P1 sc1 → 2 ≤ P1.stack.state.length) ∧
    (1 ≤ step.parser.stack.state.length ∨
      (P.stack.state.length = 1 ∧ step.parser.stack.state.length = 0 ∧
        step.isAccepted = true ∧ ∃ b, lookahead T P = .ok (some (action.accept b)))) := by
  unfold Parse.iter at h
  cases hl : lookahead T P with
  | error f => simp [hl] at h
  | ok oa =>
    cases oa with
    | some a =>
      simp only [hl] at h
      obtain ⟨e1, e2, e3⟩ := dispatch_invariant T P scanner a step hlen hd h
      refine ⟨e1, e2, ?_⟩
      rcases e3 with e4 | ⟨e4, e5, e6, b, e7⟩
      · exact Or.inl e4
      · exact Or.inr ⟨e4, e5, e6, b, by rw [e7]⟩
    | none =>
      simp only [hl] at h
      cases he : Error T fuel P none scanner with
      | error f => simp [he] at h
      | ok r =>
        simp only [he] at h
        obtain ⟨i1, i2, i3⟩ := Error_invariant T fuel P none scanner r hlen he
        by_cases hrec : r.recovered = false
        · simp only [hrec, if_true] at h
          cases hne : newError T { r.P with nextToken := r.errorAttrib.ErrorToken } none with
          | error f => simp [hne] at h
          | ok m =>
            simp only [hne, Except.ok.injEq] at h
            subst h
            refine ⟨i1, ?_, Or.inl i2⟩
            intro P1 sc1 hstep
            exact Step.noConfusion hstep
        · simp only [hrec, if_false] at h
          have hrt : r.recovered = true := by simpa using hrec
          cases hl2 : lookahead T r.P with
          | error f => simp [hl2] at h
          | ok oa =>
            cases oa with
            | none => simp [hl2] at h
            | some a =>
              simp only [hl2] at h
              obtain ⟨e1, e2, e3⟩ :=
                dispatch_invariant T r.P r.scanner a step i1 i2 h
              refine ⟨e1, e2, ?_⟩
              rcases e3 with e4 | ⟨e4, _⟩
              · exact Or.inl e4
              · have := i3 hrt
                omega

theorem trace_invariant (T : Tables) :
    ∀ (fuel : Nat) (P : Parser) (scanner : Scanner),
      P.stack.state.length = P.stack.attrib.length → 1 ≤ P.stack.state.length →
      ∀ (i : Nat) (step : Step), (Parse.trace T fuel P scanner)[i]? = some step →
        step.parser.stack.state.length = step.parser.stack.attrib.length ∧
        (1 ≤ step.parser.stack.state.length ∨
          (i = 0 ∧ P.stack.state.length = 1 ∧ step.parser.stack.state.length = 0 ∧
            step.isAccepted = true ∧
            ∃ b, lookahead T P = .ok (some (action.accept b)))) := by
  intro fuel
  induction fuel with
  | zero =>
    intro P scanner _ _ i step h
    simp [Parse.trace] at h
  | succ fuel ih =>
    intro P scanner hlen hd i step h
    unfold Parse.trace at h
    cases hit : Parse.iter T fuel P scanner with
    | error f => simp [hit] at h
    | ok st =>
      obtain ⟨e1, e2, e3⟩ := iter_invariant T fuel P scanner st hlen hd hit
      have hfirst : ∀ s1 : Step, s1 = st → [s1][i]? = some step →
          step.parser.stack.state.length = step.parser.stack.attrib.length ∧
          (1 ≤ step.parser.stack.state.length ∨
            (i = 0 ∧ P.stack.state.length = 1 ∧ step.parser.stack.state.length = 0 ∧
              step.isAccepted = true ∧
              ∃ b, lookahead T P = .ok (some (action.accept b)))) := by
        intro s1 hs1 hget
        cases i with
        | succ j => simp at hget
        | zero =>
          simp only [List.getElem?_cons_zero, Option.some.injEq] at hget
          rw [← hget, hs1]
          refine ⟨e1, ?_⟩
          rcases e3 with e4 | ⟨e4, e5, e6, e7⟩
          · exact Or.inl e4
          · exact Or.inr ⟨rfl, e4, e5, e6, e7⟩
      cases st with
      | accepted res P1 sc1 =>
        simp only [hit] at h
        exact hfirst _ rfl h
      | failed msg P1 sc1 =>
        simp only [hit] at h
        exact hfirst _ rfl h
      | next P1 sc1 =>
        simp only [hit] at h
        cases i with
        | zero =>
          exact hfirst (Step.next P1 sc1) rfl (by simpa using h)
        | succ j =>
          simp only [List.getElem?_cons_succ] at h
          have hd1 := e2 P1 sc1 rfl
          obtain ⟨f1, f2⟩ := ih P1 sc1 e1 (by omega) j step h
          refine ⟨f1, ?_⟩
          rcases f2 with f3 | ⟨_, f4, _⟩
          · exact Or.inl f3
          · omega

theorem loop_last_step (T : Tables) :
    ∀ (fuel : Nat) (P : Parser) (scanner : Scanner) (r : ParseResult),
      Parse.loop T fuel P scanner = .ok r →
      ∃ step, (Parse.trace T fuel P scanner).getLast? = some step ∧
        step.parser = r.P ∧
        (step = Step.accepted r.res r.P r.scanner ∧ r.err = none ∨
          ∃ msg, step = Step.failed msg r.P r.scanner ∧ r.err = some msg ∧
            r.res = Attrib.nil) := by
  intro fuel
  induction fuel with
  | zero =>
    intro P scanner r h
    simp [Parse.loop] at h
  | succ fuel ih =>
    intro P scanner r h
    unfold Parse.loop at h
    unfold Parse.trace
    cases hit : Parse.iter T fuel P scanner with
    | error f => simp [hit] at h
    | ok st =>
      cases st with
      | accepted res P1 sc1 =>
        simp only [hit, Except.ok.injEq] at h
        subst h
        exact ⟨_, rfl, rfl, Or.inl ⟨rfl, rfl⟩⟩
      | failed msg P1 sc1 =>
        simp only [hit, Except.ok.injEq] at h
        subst h
        exact ⟨_, rfl, rfl, Or.inr ⟨msg, rfl, rfl, rfl⟩⟩
      | next P1 sc1 =>
        simp only [hit] at h
        obtain ⟨step, g1, g2⟩ := ih P1 sc1 r h
        refine ⟨step, ?_, g2⟩
        simp only
        rw [List.getLast?_cons, g1]
        rfl

/-- C3, as the code has it: the two sequences of the stack have equal length
after `Reset`, after `Parser.Error` returns and after every iteration of the
loop of `Parse` (shift, reduce, accept, failure), for all tables and all token
streams; the depth is at least 1 after `Reset`, after `Parser.Error` and after
every iteration, except for one case: an accept found for the first token in
state 0 of the freshly reset stack is taken at depth 1 and leaves the stack
empty.  The last recorded step is the one `Parse` returns from. -/
theorem stack_invariant (T : Tables) (fuel : Nat) (P : Parser) (scanner : Scanner) :
    (P.Reset.stack.state.length = 1 ∧ P.Reset.stack.attrib.length = 1) ∧
    (∀ (Q : Parser) (fuel1 : Nat) (err : Option String) (sc : Scanner) (r : ErrorResult),
      Q.stack.state.length = Q.stack.attrib.length →
      Error T fuel1 Q err sc = .ok r →
      r.P.stack.state.length = r.P.stack.attrib.length ∧ 1 ≤ r.P.stack.state.length) ∧
    (∀ (i : Nat) (step : Step),
      (Parse.trace T fuel { P.Reset with nextToken := some scanner.Scan.1 }
        scanner.Scan.2)[i]? = some step →
      step.parser.stack.state.length = step.parser.stack.attrib.length ∧
      (1 ≤ step.parser.stack.state.length ∨
        (i = 0 ∧ step.parser.stack.state.length = 0 ∧ step.isAccepted = true ∧
          ∃ b, lookahead T { P.Reset with nextToken := some scanner.Scan.1 }
            = .ok (some (action.accept b))))) ∧
    (∀ r : ParseResult, Parse T fuel P scanner = .ok r →
      ∃ step, (Parse.trace T fuel { P.Reset with nextToken := some scanner.Scan.1 }
        scanner.Scan.2).getLast? = some step ∧ step.parser = r.P) := by
  refine ⟨⟨rfl, rfl⟩, ?_, ?_, ?_⟩
  · intro Q fuel1 err sc r hlen h
    obtain ⟨h1, h2, _⟩ := Error_invariant T fuel1 Q err sc r hlen h
    exact ⟨h1, h2⟩
  · intro i step h
    obtain ⟨h1, h2⟩ := trace_invariant T fuel
      { P.Reset with nextToken := some scanner.Scan.1 } scanner.Scan.2 rfl (le_refl _) i step h
    refine ⟨h1, ?_⟩
    rcases h2 with h3 | ⟨h3, _, h5, h6, h7⟩
    · exact Or.inl h3
    · exact Or.inr ⟨h3, h5, h6, h7⟩
  · intro r h
    obtain ⟨step, h1, h2, _⟩ := loop_last_step T fuel _ _ r h
    exact ⟨step, h1, h2⟩

/-- Counterexample to C3 as stated: with a table whose state 0 accepts on end
of input, the parse of the empty input accepts in its first iteration and the
stack is empty afterwards, so "depth at least 1 after every step" fails. -/
theorem stack_invariant_fails_after_accept :
    (¬ ∀ (i : Nat) (step : Step),
      (Parse.trace acceptAtStart 1 { NewParser.Reset with nextToken := some (scannerOf []).Scan.1 }
        (scannerOf []).Scan.2)[i]? = some step →
      step.parser.stack.state.length = step.parser.stack.attrib.length ∧
        1 ≤ step.parser.stack.state.length) ∧
    (∃ r : ParseResult, Parse acceptAtStart 1 NewParser (scannerOf []) = .ok r ∧
      r.err = none ∧ r.P.stack.state = [] ∧ r.P.stack.attrib = []) := by
  constructor
  · intro h
    have h1 := h 0 _ rfl
    exact absurd h1.2 (by decide)
  · exact ⟨_, rfl, rfl, rfl, rfl⟩

/-! ## The error attribute -/

theorem expectedFrom_eq (T : Tables) :
    ∀ (actions : List (Option action)) (t : Nat) (acc : List String),
      expectedFrom T t actions acc =
        acc ++ ((List.range actions.length).filter (hasAction actions)).map
          (fun i => T.tokId ((t + i : Nat) : Int)) := by
  intro actions
  induction actions with
  | nil =>
    intro t acc
    simp [expectedFrom]
  | cons a rest ih =>
    intro t acc
    have hsucc : hasAction (a :: rest) ∘ Nat.succ = hasAction rest := by
      funext i
      simp [hasAction]
    have h0 : hasAction (a :: rest) 0 = a.isSome := by
      cases a with
      | none => simp [hasAction]
      | some x => simp [hasAction]
    simp only [expectedFrom, List.length_cons]
    rw [ih, List.range_succ_eq_map, List.filter_cons, List.filter_map, hsucc, h0]
    have harith : ∀ i : Nat, ((t : Int) + 1 + (i : Int)) = (t : Int) + ((i : Int) + 1) := by
      intro i
      omega
    cases a with
    | none => simp [List.map_map, harith]
    | some x => simp [List.map_map, harith]

theorem expectedFrom_eq_tokensWithAction (T : Tables) (row : actionRow) :
    expectedFrom T 0 row.actions [] = tokensWithAction T row := by
  rw [expectedFrom_eq]
  simp [tokensWithAction]

theorem Error_of_enter_true (T : Tables) (fuel : Nat) (P : Parser) (err : Option String)
    (scanner : Scanner) (ea : parseError.Error Attrib) (P1 : Parser)
    (h : Error.enter T P err = .ok (ea, P1, true)) :
    Error T fuel P err scanner =
      match Error.resync T fuel P1 scanner with
      | .error f => .error f
      | .ok (recovered, P2, scanner2) =>
        .ok { recovered := recovered, errorAttrib := ea, P := P2, scanner := scanner2 } := by
  simp only [Error, h]

theorem Error_of_enter_false (T : Tables) (fuel : Nat) (P : Parser) (err : Option String)
    (scanner : Scanner) (ea : parseError.Error Attrib) (P1 : Parser)
    (h : Error.enter T P err = .ok (ea, P1, false)) :
    Error T fuel P err scanner =
      .ok { recovered := false, errorAttrib := ea, P := P1, scanner := scanner } := by
  simp only [Error, h]

theorem Error_enter_of_shift (T : Tables) (P : Parser) (err : Option String) (r : Nat)
    (s t : Int) (row : actionRow)
    (hlen : P.stack.attrib.length = P.stack.state.length)
    (hf : firstRecoveryState T P = .ok ((r : Int), true))
    (hs : P.stack.state[r]? = some s) (hrow : index T.actionTab s = .ok row)
    (hshift : index row.actions T.errorType = .ok (some (action.shift t))) :
    Error.enter T P err =
      .ok ({ Err := err, ErrorToken := P.nextToken,
             ErrorSymbols := P.stack.attrib.drop (r + 1),
             ExpectedTokens := expectedFrom T 0 row.actions [] },
           { P with
             stack :=
               stack.mk (P.stack.state.take (r + 1) ++ [t])
                 (P.stack.attrib.take (r + 1) ++
                   [Attrib.error { Err := err, ErrorToken := P.nextToken,
                                   ErrorSymbols := P.stack.attrib.drop (r + 1),
                                   ExpectedTokens := expectedFrom T 0 row.actions [] }]) },
           true) := by
  obtain ⟨r1, e1, e2, _, _, _⟩ := (firstRecoveryState_ok_iff T P _ true).mp hf
  have hr : r1 = r := by omega
  subst hr
  have htop : (stack.mk (P.stack.state.take (r1 + 1)) (P.stack.attrib.take (r1 + 1))).top
      = .ok s :=
    top_take P.stack.state _ (r1 + 1) s (by omega) (by omega) (by simpa using hs)
  unfold Error.enter
  rw [popNonRecoveryStates_of_recoveryState T P r1 hlen hf]
  simp only [htop, hrow, hshift, stack.push]

theorem Error_enter_of_none (T : Tables) (P : Parser) (err : Option String)
    (s : Int) (row : actionRow)
    (hf : firstRecoveryState T P = .ok (0, false))
    (hs : P.stack.top = .ok s) (hrow : index T.actionTab s = .ok row)
    (hnone : index row.actions T.errorType = .ok none) :
    Error.enter T P err =
      .ok ({ Err := err, ErrorToken := P.nextToken, ErrorSymbols := [],
             ExpectedTokens := expectedFrom T 0 row.actions [] }, P, false) := by
  unfold Error.enter
  rw [popNonRecoveryStates_of_none T P hf]
  simp only [hs, hrow, hnone]

theorem Parser_eta_nextToken (P : Parser) (tok : Token) (h : P.nextToken = some tok) :
    { P with nextToken := some tok } = P := by
  cases P
  simp only at h
  simp [h]

theorem Error_resync_run (T : Tables) (P1 : Parser) (scanner : Scanner) (tok : Token)
    (k fuel : Nat) (a : Option action)
    (htok : P1.nextToken = some tok) (hfuel : k ≤ fuel)
    (hskip : ∀ j, j < k →
      lookahead T { P1 with nextToken := some (resyncToken tok scanner j) } = .ok none ∧
      (resyncToken tok scanner j).Typ ≠ T.EOF)
    (hl : lookahead T { P1 with nextToken := some (resyncToken tok scanner k) } = .ok a)
    (hstop : a.isSome = true ∨ (resyncToken tok scanner k).Typ = T.EOF) :
    Error.resync T fuel P1 scanner =
      .ok (a.isSome, { P1 with nextToken := some (resyncToken tok scanner k) },
           { scanner with pos := scanner.pos + k }) := by
  have heta := Parser_eta_nextToken P1 tok htok
  unfold Error.resync
  cases k with
  | zero =>
    simp only [resyncToken, heta] at hl hstop
    simp only [hl, resyncToken, heta]
    have hc : Error.continues T a.isSome P1 = .ok false := by
      rw [Error_continues_false]
      rcases hstop with h1 | h1
      · exact Or.inl h1
      · exact Or.inr ⟨tok, htok, h1⟩
    rw [Error_loop_stop T fuel _ _ _ hc]
    rfl
  | succ k =>
    obtain ⟨h0, h0e⟩ := hskip 0 (by omega)
    simp only [resyncToken, heta] at h0 h0e
    simp only [h0, Option.isSome_none]
    have := Error_loop_run T k fuel P1 scanner tok a htok h0e (by omega)
      (fun j hj => hskip (j + 1) (by omega)) hl hstop
    rw [this]
    rfl

/-- C4, as the code has it: when `Parser.Error` returns, the `ExpectedTokens`
of its error attribute are exactly the identifiers of the token types that have
an action in the `actionTab` row of the state on top of the stack after
`popNonRecoveryStates` has discarded the entries above the recovery state (and
before the error state is pushed): the recovery state itself when there is
one, the unchanged top state when there is none. -/
theorem expectedTokens_of_post_discard_row (T : Tables) (fuel : Nat) (P : Parser)
    (err : Option String) (scanner : Scanner) (r : ErrorResult)
    (h : Error T fuel P err scanner = .ok r) :
    ∃ syms P0 s row,
      popNonRecoveryStates T P = .ok (syms, P0) ∧ P0.stack.top = .ok s ∧
      index T.actionTab s = .ok row ∧
      r.errorAttrib.ExpectedTokens = tokensWithAction T row ∧
      (∀ rs : Nat, firstRecoveryState T P = .ok ((rs : Int), true) →
        P.stack.state[rs]? = some s) ∧
      (firstRecoveryState T P = .ok (0, false) → P.stack.top = .ok s) := by
  obtain ⟨P1, pushed, h1, _⟩ := Error_ok T fuel P err scanner r h
  obtain ⟨syms, P0, s, row, g1, g2, g3, g4, _⟩ := Error_enter_ok T P err _ _ _ h1
  refine ⟨syms, P0, s, row, g1, g2, g3, ?_, ?_, ?_⟩
  · rw [g4]
    exact expectedFrom_eq_tokensWithAction T row
  · intro rs hrs
    obtain ⟨_, _, k⟩ := popNonRecoveryStates_ok T P syms P0 g1
    rcases k with ⟨k1, _, _⟩ | ⟨r0, k1, k2, _, k4, _, _⟩
    · rw [hrs] at k1
      simp at k1
    · rw [hrs] at k1
      simp only [Except.ok.injEq, Prod.mk.injEq, Nat.cast_inj, and_true] at k1
      subst k1
      obtain ⟨t1, t2⟩ := (top_ok_iff _ _).mp g2
      rw [k4] at t2
      have hl : (List.take (rs + 1) P.stack.state).length = rs + 1 := by
        simp only [List.length_take]
        omega
      rw [hl, List.getElem?_take] at t2
      simpa using t2
  · intro hnone
    obtain ⟨_, _, k⟩ := popNonRecoveryStates_ok T P syms P0 g1
    rcases k with ⟨_, _, k3⟩ | ⟨r0, k1, _⟩
    · rw [← k3]
      exact g2
    · rw [hnone] at k1
      simp at k1

/-- Witness for C4: recovery in state 0 after the entry of state 1 is popped. -/
theorem expectedTokens_of_post_discard_row_witness :
    ∃ syms P0 s row,
      popNonRecoveryStates recoveryTables stuckOnId = .ok (syms, P0) ∧ P0.stack.top = .ok s ∧
      index recoveryTables.actionTab s = .ok row ∧
      ["id", "error"] = tokensWithAction recoveryTables row ∧
      (∀ rs : Nat, firstRecoveryState recoveryTables stuckOnId = .ok ((rs : Int), true) →
        stuckOnId.stack.state[rs]? = some s) ∧
      (firstRecoveryState recoveryTables stuckOnId = .ok (0, false) →
        stuckOnId.stack.top = .ok s) :=
  expectedTokens_of_post_discard_row recoveryTables 5 stuckOnId none restOfInput
    { recovered := true,
      errorAttrib := { Err := none, ErrorToken := some (idTok "b" 1),
                       ErrorSymbols := [Attrib.tok (idTok "a" 0)],
                       ExpectedTokens := ["id", "error"] },
      P := { stack := ⟨[0, 2], [Attrib.nil, Attrib.error
                { Err := none, ErrorToken := some (idTok "b" 1),
                  ErrorSymbols := [Attrib.tok (idTok "a" 0)],
                  ExpectedTokens := ["id", "error"] }]⟩,
             nextToken := some (semiTok 3), pos := 0 },
      scanner := { src := restOfInput.src, pos := 4 } }
    rfl

/-- Counterexample to C4 as stated: the parser is stuck in state 1 (row:
only `;`), recovery pops back to state 0, and the recorded `ExpectedTokens` are
those of the row of state 0 (`id`, `error`), not those of the pre-discard top
state 1. -/
theorem expectedTokens_not_of_pre_discard_row :
    ∃ r row,
      Error recoveryTables 5 stuckOnId none restOfInput = .ok r ∧
      stuckOnId.stack.top = .ok 1 ∧ index recoveryTables.actionTab 1 = .ok row ∧
      tokensWithAction recoveryTables row = [";"] ∧
      r.errorAttrib.ExpectedTokens = ["id", "error"] ∧
      r.errorAttrib.ExpectedTokens ≠ tokensWithAction recoveryTables row :=
  ⟨_, _, rfl, rfl, rfl, rfl, rfl, by decide⟩

theorem Error_run_of_enter (T : Tables) (P : Parser) (err : Option String)
    (ea : parseError.Error Attrib) (P1 : Parser)
    (henter : Error.enter T P err = .ok (ea, P1, true))
    (scanner : Scanner) (tok : Token) (k fuel : Nat) (a : Option action)
    (htok : P1.nextToken = some tok) (hfuel : k ≤ fuel)
    (hskip : ∀ j, j < k →
      lookahead T { P1 with nextToken := some (resyncToken tok scanner j) } = .ok none ∧
      (resyncToken tok scanner j).Typ ≠ T.EOF)
    (hl : lookahead T { P1 with nextToken := some (resyncToken tok scanner k) } = .ok a)
    (hstop : a.isSome = true ∨ (resyncToken tok scanner k).Typ = T.EOF) :
    Error T fuel P err scanner =
      .ok { recovered := a.isSome, errorAttrib := ea,
            P := { P1 with nextToken := some (resyncToken tok scanner k) },
            scanner := { scanner with pos := scanner.pos + k } } := by
  rw [Error_of_enter_true T fuel P err scanner _ _ henter,
    Error_resync_run T P1 scanner tok k fuel a htok hfuel hskip hl hstop]

theorem Error_enter_nextToken (T : Tables) (P : Parser) (err : Option String)
    (ea : parseError.Error Attrib) (P1 : Parser) (pushed : Bool)
    (h : Error.enter T P err = .ok (ea, P1, pushed)) :
    P1.nextToken = P.nextToken ∧ ea.ErrorToken = P.nextToken := by
  obtain ⟨syms, P0, s, row, g1, _, _, g4, g5⟩ := Error_enter_ok T P err _ _ _ h
  obtain ⟨k1, _, _⟩ := popNonRecoveryStates_ok T P syms P0 g1
  refine ⟨?_, by rw [g4]⟩
  rcases g5 with ⟨_, e2, _⟩ | ⟨t, _, _, e3⟩
  · rw [e2, k1]
  · rw [e3]
    exact k1

/-- C5, as the code has it: if no state on the stack, from the top down to the
bottom entry, has its `canRecover` flag set and the row of the top state has no
action for the `error` pseudo-token, then `Parser.Error` fails immediately: it
returns `recovered = false` with an empty list of discarded symbols, and leaves
the stack, the lookahead and the scanner untouched, for every budget. -/
theorem Error_fails_without_recovery_state (T : Tables) (fuel : Nat) (P : Parser)
    (err : Option String) (scanner : Scanner) (s : Int) (row : actionRow)
    (hno : ∀ j, j < P.stack.state.length → canRecoverAt T P.stack j = some false)
    (hs : P.stack.top = .ok s) (hrow : index T.actionTab s = .ok row)
    (hnone : index row.actions T.errorType = .ok none) :
    Error T fuel P err scanner =
      .ok { recovered := false,
            errorAttrib := { Err := err, ErrorToken := P.nextToken, ErrorSymbols := [],
                             ExpectedTokens := tokensWithAction T row },
            P := P, scanner := scanner } := by
  have hd := top_ok_depth _ _ hs
  have hf : firstRecoveryState T P = .ok (0, false) :=
    (firstRecoveryState_ok_iff T P 0 false).mpr
      ⟨0, rfl, hd, hno 0 hd, fun j _ hj => hno j hj, fun _ => rfl⟩
  rw [Error_of_enter_false T fuel P err scanner _ _
    (Error_enter_of_none T P err s row hf hs hrow hnone),
    expectedFrom_eq_tokensWithAction]

/-- Witness for C5: the parse of the empty input with the tables of `astx`,
which have no recovery state and no `error` token. -/
theorem Error_fails_without_recovery_state_witness :
    Error astxTables 0 freshOnEof none (scannerOf []) =
      .ok { recovered := false,
            errorAttrib := { Err := none, ErrorToken := freshOnEof.nextToken,
                             ErrorSymbols := [],
                             ExpectedTokens := tokensWithAction astxTables
                               { canRecover := false,
                                 actions := [none, none, some (action.shift 3)] } },
            P := freshOnEof, scanner := scannerOf [] } :=
  Error_fails_without_recovery_state astxTables 0 freshOnEof none (scannerOf []) 0
    { canRecover := false, actions := [none, none, some (action.shift 3)] }
    (by decide) rfl rfl rfl

/-- Counterexample to C5 as stated: no state on the stack has `canRecover`, yet
the row of the top state shifts the `error` pseudo-token, and `Parser.Error`
returns `recovered = true`. -/
theorem Error_recovers_without_recovery_state :
    (∀ j, j < freshOnEof.stack.state.length →
      canRecoverAt errorShiftNoFlag freshOnEof.stack j = some false) ∧
    ∃ r, Error errorShiftNoFlag 0 freshOnEof none (scannerOf []) = .ok r ∧
      r.recovered = true ∧ r.P.stack.state = [0, 1] :=
  ⟨by decide, _, rfl, rfl, rfl⟩

/-- C7: when a recovery point `rs` exists (the largest stack index whose state
has `canRecover`) and the row of the state at `rs` shifts the `error`
pseudo-token to `t`, the part of `Parser.Error` up to the push leaves the
entries `0..rs` followed by the one new entry `(t, errorAttrib)`;
`ErrorSymbols` are the attributes of the entries `rs+1..top` in bottom-to-top
order and `ErrorToken` is the lookahead at the call.  The resynchronisation
that follows does not touch the stack or the attribute: whenever `Error`
returns it returns them, and it does return as soon as the budget reaches the
position `k` of the first token (the lookahead counted as position 0) that
has an action at `t` or is the end of input. -/
theorem Error_pushes_error_state (T : Tables) (P : Parser) (err : Option String)
    (rs : Nat) (s t : Int) (row : actionRow)
    (hlen : P.stack.attrib.length = P.stack.state.length)
    (hs : P.stack.state[rs]? = some s) (hrow : index T.actionTab s = .ok row)
    (hcan : row.canRecover = true)
    (habove : ∀ j, rs < j → j < P.stack.state.length →
      canRecoverAt T P.stack j = some false)
    (hshift : index row.actions T.errorType = .ok (some (action.shift t))) :
    ∃ (ea : parseError.Error Attrib) (P1 : Parser),
      Error.enter T P err = .ok (ea, P1, true) ∧
      P1.stack.state = P.stack.state.take (rs + 1) ++ [t] ∧
      P1.stack.attrib = P.stack.attrib.take (rs + 1) ++ [Attrib.error ea] ∧
      P1.nextToken = P.nextToken ∧
      ea.ErrorSymbols = P.stack.attrib.drop (rs + 1) ∧
      ea.ErrorToken = P.nextToken ∧ ea.Err = err ∧
      (∀ fuel scanner res, Error T fuel P err scanner = .ok res →
        res.errorAttrib = ea ∧ res.P.stack = P1.stack) ∧
      (∀ (scanner : Scanner) (tok : Token) (k fuel : Nat) (a : Option action),
        P.nextToken = some tok → k ≤ fuel →
        (∀ j, j < k →
          lookahead T { P1 with nextToken := some (resyncToken tok scanner j) } = .ok none ∧
          (resyncToken tok scanner j).Typ ≠ T.EOF) →
        lookahead T { P1 with nextToken := some (resyncToken tok scanner k) } = .ok a →
        (a.isSome = true ∨ (resyncToken tok scanner k).Typ = T.EOF) →
        Error T fuel P err scanner =
          .ok { recovered := a.isSome, errorAttrib := ea,
                P := { P1 with nextToken := some (resyncToken tok scanner k) },
                scanner := { scanner with pos := scanner.pos + k } }) := by
  have hlt : rs < P.stack.state.length := by
    rcases Nat.lt_or_ge rs P.stack.state.length with h | h
    · exact h
    · rw [List.getElem?_eq_none h] at hs
      exact absurd hs (by simp)
  have hf : firstRecoveryState T P = .ok ((rs : Int), true) :=
    (firstRecoveryState_ok_iff T P (rs : Int) true).mpr
      ⟨rs, rfl, hlt,
        (canRecoverAt_eq_some T P.stack rs true).mpr ⟨s, row, hs, hrow, hcan⟩,
        habove, fun h => Bool.noConfusion h⟩
  have henter := Error_enter_of_shift T P err rs s t row hlen hf hs hrow hshift
  refine ⟨_, _, henter, rfl, rfl, rfl, rfl, rfl, rfl, ?_, ?_⟩
  · intro fuel scanner res hres
    obtain ⟨P2, pushed, g1, g2, _⟩ := Error_ok T fuel P err scanner res hres
    rw [henter] at g1
    simp only [Except.ok.injEq, Prod.mk.injEq] at g1
    obtain ⟨g3, g4, _⟩ := g1
    refine ⟨g3.symm, ?_⟩
    rw [g2, ← g4]
  · intro scanner tok k fuel a htok hfuel hskip hl hstop
    exact Error_run_of_enter T P err _ _ henter scanner tok k fuel a htok hfuel hskip hl hstop

/-- Witness for C7: the parser stuck in state 1 recovers in state 0, which
shifts the `error` pseudo-token to state 2. -/
theorem Error_pushes_error_state_witness :
    ∃ (ea : parseError.Error Attrib) (P1 : Parser),
      Error.enter recoveryTables stuckOnId none = .ok (ea, P1, true) ∧
      P1.stack.state = [0, 2] ∧
      P1.stack.attrib = [Attrib.nil, Attrib.error ea] ∧
      ea.ErrorSymbols = [Attrib.tok (idTok "a" 0)] ∧
      ea.ErrorToken = some (idTok "b" 1) :=
  let ⟨ea, P1, h1, h2, h3, _, h5, h6, _⟩ :=
    Error_pushes_error_state recoveryTables stuckOnId none 0 0 2
      { canRecover := true,
        actions := [none, none, some (action.shift 1), some (action.shift 2), none] }
      rfl rfl rfl rfl
      (fun j h1 h2 => by
        have hj : j = 1 := by
          have : j < 2 := h2
          omega
        subst hj
        rfl)
      rfl
  ⟨ea, P1, h1, h2, h3, h5, h6⟩

/-- C8: resynchronisation after the error state was pushed.  If the lookahead
has no action at the new top state and is not the end of input, `Error` pulls
tokens one at a time and stops at the first pulled token that has an action at
the new top state or is of type `EOF`: with `k ≥ 1` the position of that token
in the remaining input, `Error` returns as soon as the budget is `k`, `Scan`
has been called exactly `k` times, the lookahead is that token, and `recovered`
is true exactly when that token has an action at the new top state. -/
theorem Error_resynchronises (T : Tables) (P : Parser) (err : Option String)
    (ea : parseError.Error Attrib) (P1 : Parser) (scanner : Scanner) (tok : Token)
    (k fuel : Nat) (a : Option action)
    (henter : Error.enter T P err = .ok (ea, P1, true))
    (htok : P1.nextToken = some tok)
    (hnone : lookahead T P1 = .ok none) (hne : tok.Typ ≠ T.EOF)
    (hk : 1 ≤ k) (hfuel : k ≤ fuel)
    (hskip : ∀ j, j + 1 < k →
      lookahead T { P1 with nextToken := some (scanner.src (scanner.pos + j)) } = .ok none ∧
      (scanner.src (scanner.pos + j)).Typ ≠ T.EOF)
    (hl : lookahead T { P1 with nextToken := some (scanner.src (scanner.pos + (k - 1))) }
      = .ok a)
    (hstop : a.isSome = true ∨ (scanner.src (scanner.pos + (k - 1))).Typ = T.EOF) :
    ∃ res : ErrorResult,
      Error T fuel P err scanner = .ok res ∧
      res.scanner.src = scanner.src ∧ res.scanner.pos = scanner.pos + k ∧
      res.P.nextToken = some (scanner.src (scanner.pos + (k - 1))) ∧
      (res.recovered = true ↔ a.isSome = true) ∧
      (res.recovered = true ↔
        ∃ x, lookahead T { P1 with nextToken := some (scanner.src (scanner.pos + (k - 1))) }
          = .ok (some x)) ∧
      res.P.stack = P1.stack ∧ res.errorAttrib = ea := by
  obtain ⟨k0, rfl⟩ : ∃ k0, k = k0 + 1 := ⟨k - 1, by omega⟩
  have hrun := Error_run_of_enter T P err ea P1 henter scanner tok (k0 + 1) fuel a htok hfuel
    (by
      intro j hj
      cases j with
      | zero =>
        simp only [resyncToken, Parser_eta_nextToken P1 tok htok]
        exact ⟨hnone, hne⟩
      | succ i => exact hskip i (by omega))
    hl hstop
  refine ⟨_, hrun, rfl, rfl, rfl, Iff.rfl, ?_, rfl, rfl⟩
  simp only [Nat.add_sub_cancel] at hl
  show a.isSome = true ↔ _
  simp only [Nat.add_sub_cancel, hl, Except.ok.injEq]
  cases a with
  | none => simp
  | some x => simp

/-- Witness for C8: stuck on `b` in the input `a b c ;`, the resynchronisation
skips `c` and stops at `;`, the second token of the remaining input. -/
theorem Error_resynchronises_witness :
    ∃ res : ErrorResult,
      Error recoveryTables 2 stuckOnId none restOfInput = .ok res ∧
      res.scanner.pos = restOfInput.pos + 2 ∧
      res.P.nextToken = some (semiTok 3) ∧
      (res.recovered = true ↔ (some (action.shift 3)).isSome = true) :=
  let ⟨res, h1, _, h3, h4, h5, _⟩ :=
    Error_resynchronises recoveryTables stuckOnId none
      { Err := none, ErrorToken := some (idTok "b" 1),
        ErrorSymbols := [Attrib.tok (idTok "a" 0)],
        ExpectedTokens := ["id", "error"] }
      { stack := ⟨[0, 2], [Attrib.nil, Attrib.error
          { Err := none, ErrorToken := some (idTok "b" 1),
            ErrorSymbols := [Attrib.tok (idTok "a" 0)],
            ExpectedTokens := ["id", "error"] }]⟩,
        nextToken := some (idTok "b" 1), pos := 0 }
      restOfInput (idTok "b" 1) 2 2 (some (action.shift 3))
      rfl rfl rfl (by decide) (by decide) (by decide)
      (fun j hj => by
        have hj0 : j = 0 := by omega
        subst hj0
        exact ⟨rfl, by decide⟩)
      rfl (Or.inl rfl)
  ⟨res, h1, h3, h4, h5⟩

/-- C9: if, after the error state was pushed, the lookahead already has an
action at the new top state, `Parser.Error` returns `recovered = true` without
calling `Scan`: the scanner and the lookahead are the ones of the call, for
every budget (zero included). -/
theorem Error_recovers_immediately (T : Tables) (fuel : Nat) (P : Parser)
    (err : Option String) (scanner : Scanner)
    (ea : parseError.Error Attrib) (P1 : Parser) (x : action)
    (henter : Error.enter T P err = .ok (ea, P1, true))
    (hact : lookahead T P1 = .ok (some x)) :
    Error T fuel P err scanner =
      .ok { recovered := true, errorAttrib := ea, P := P1, scanner := scanner } ∧
    P1.nextToken = P.nextToken := by
  refine ⟨?_, (Error_enter_nextToken T P err ea P1 true henter).1⟩
  have htok : ∃ tok, P1.nextToken = some tok := by
    unfold lookahead at hact
    cases hn : P1.nextToken with
    | some tok => exact ⟨tok, rfl⟩
    | none =>
      rw [hn] at hact
      cases h1 : P1.stack.top with
      | error f => simp [h1] at hact
      | ok s =>
        cases h2 : index T.actionTab s with
        | error f => simp [h1, h2] at hact
        | ok row => simp [h1, h2] at hact
  obtain ⟨tok, htok⟩ := htok
  have heta := Parser_eta_nextToken P1 tok htok
  have hrun := Error_run_of_enter T P err ea P1 henter scanner tok 0 fuel (some x) htok
    (Nat.zero_le _) (fun j hj => absurd hj (Nat.not_lt_zero j))
    (by
      simp only [resyncToken, heta]
      exact hact)
    (Or.inl rfl)
  rw [hrun]
  simp only [resyncToken, heta]
  rfl

/-- Witness for C9: stuck on the end of input in state 1, recovery pushes
state 2, which accepts on the end of input; no token is scanned. -/
theorem Error_recovers_immediately_witness :
    Error recoveryTables 0 stuckOnEof none restOfInput =
      .ok { recovered := true,
            errorAttrib := { Err := none, ErrorToken := some (eofTok 1),
                             ErrorSymbols := [Attrib.tok (idTok "a" 0)],
                             ExpectedTokens := ["id", "error"] },
            P := { stack := ⟨[0, 2], [Attrib.nil, Attrib.error
                     { Err := none, ErrorToken := some (eofTok 1),
                       ErrorSymbols := [Attrib.tok (idTok "a" 0)],
                       ExpectedTokens := ["id", "error"] }]⟩,
                   nextToken := some (eofTok 1), pos := 0 },
            scanner := restOfInput } ∧
    some (eofTok 1) = stuckOnEof.nextToken :=
  Error_recovers_immediately recoveryTables 0 stuckOnEof none restOfInput
    { Err := none, ErrorToken := some (eofTok 1),
      ErrorSymbols := [Attrib.tok (idTok "a" 0)],
      ExpectedTokens := ["id", "error"] }
    { stack := ⟨[0, 2], [Attrib.nil, Attrib.error
        { Err := none, ErrorToken := some (eofTok 1),
          ErrorSymbols := [Attrib.tok (idTok "a" 0)],
          ExpectedTokens := ["id", "error"] }]⟩,
      nextToken := some (eofTok 1), pos := 0 }
    (action.accept true) rfl rfl

/-! ## The panic after recovery -/

theorem index_fault {α : Type} (xs : List α) (i : Int) (f : Fault)
    (h : index xs i = .error f) : f.isPanic = false := by
  unfold index at h
  split at h
  · simp only [Except.error.injEq] at h
    rw [← h]
    rfl
  · split at h
    · simp at h
    · simp only [Except.error.injEq] at h
      rw [← h]
      rfl

theorem popN_fault (st : stack) (items : Int) (f : Fault)
    (h : st.popN items = .error f) : f.isPanic = false := by
  unfold stack.popN at h
  simp only at h
  split at h
  · simp only [Except.error.injEq] at h
    rw [← h]
    rfl
  · simp at h

theorem lookahead_fault (T : Tables) (P : Parser) (f : Fault)
    (h : lookahead T P = .error f) : f.isPanic = false := by
  unfold lookahead at h
  cases h1 : P.stack.top with
  | error g =>
    simp only [h1, Except.error.injEq] at h
    rw [← h]
    exact index_fault _ _ _ h1
  | ok s =>
    simp only [h1] at h
    cases h2 : index T.actionTab s with
    | error g =>
      simp only [h2, Except.error.injEq] at h
      rw [← h]
      exact index_fault _ _ _ h2
    | ok row =>
      simp only [h2] at h
      cases h3 : P.nextToken with
      | none =>
        simp only [h3, Except.error.injEq] at h
        rw [← h]
        rfl
      | some tok =>
        simp only [h3] at h
        exact index_fault _ _ _ h

theorem firstRecoveryState_loop_fault (T : Tables) (st : stack) :
    ∀ (n : Nat) (c : Bool) (f : Fault),
      firstRecoveryState.loop T st n c = .error f → f.isPanic = false := by
  intro n
  induction n with
  | zero =>
    intro c f h
    simp [firstRecoveryState.loop] at h
  | succ n ih =>
    intro c f h
    unfold firstRecoveryState.loop at h
    split at h
    · simp at h
    · cases h1 : st.peek (n : Int) with
      | error g =>
        simp only [h1, Except.error.injEq] at h
        rw [← h]
        exact index_fault _ _ _ h1
      | ok s =>
        simp only [h1] at h
        cases h2 : index T.actionTab s with
        | error g =>
          simp only [h2, Except.error.injEq] at h
          rw [← h]
          exact index_fault _ _ _ h2
        | ok row =>
          simp only [h2] at h
          exact ih _ _ h

theorem firstRecoveryState_fault (T : Tables) (P : Parser) (f : Fault)
    (h : firstRecoveryState T P = .error f) : f.isPanic = false := by
  unfold firstRecoveryState at h
  cases h1 : P.stack.top with
  | error g =>
    simp only [h1, Except.error.injEq] at h
    rw [← h]
    exact index_fault _ _ _ h1
  | ok s =>
    simp only [h1] at h
    cases h2 : index T.actionTab s with
    | error g =>
      simp only [h2, Except.error.injEq] at h
      rw [← h]
      exact index_fault _ _ _ h2
    | ok row =>
      simp only [h2] at h
      exact firstRecoveryState_loop_fault T _ _ _ _ h

theorem popNonRecoveryStates_fault (T : Tables) (P : Parser) (f : Fault)
    (h : popNonRecoveryStates T P = .error f) : f.isPanic = false := by
  unfold popNonRecoveryStates at h
  cases h1 : firstRecoveryState T P with
  | error g =>
    simp only [h1, Except.error.injEq] at h
    rw [← h]
    exact firstRecoveryState_fault _ _ _ h1
  | ok res =>
    obtain ⟨rs, b⟩ := res
    simp only [h1] at h
    cases b with
    | false => simp at h
    | true =>
      simp only [if_true] at h
      cases h2 : P.stack.popN (P.stack.topIndex - rs) with
      | error g =>
        simp only [h2, Except.error.injEq] at h
        rw [← h]
        exact popN_fault _ _ _ h2
      | ok res => simp [h2] at h

theorem Error_enter_fault (T : Tables) (P : Parser) (err : Option String) (f : Fault)
    (h : Error.enter T P err = .error f) : f.isPanic = false := by
  unfold Error.enter at h
  cases h1 : popNonRecoveryStates T P with
  | error g =>
    simp only [h1, Except.error.injEq] at h
    rw [← h]
    exact popNonRecoveryStates_fault _ _ _ h1
  | ok res =>
    obtain ⟨syms, P0⟩ := res
    simp only [h1] at h
    cases h2 : P0.stack.top with
    | error g =>
      simp only [h2, Except.error.injEq] at h
      rw [← h]
      exact index_fault _ _ _ h2
    | ok s =>
      simp only [h2] at h
      cases h3 : index T.actionTab s with
      | error g =>
        simp only [h3, Except.error.injEq] at h
        rw [← h]
        exact index_fault _ _ _ h3
      | ok row =>
        simp only [h3] at h
        cases h4 : index row.actions T.errorType with
        | error g =>
          simp only [h4, Except.error.injEq] at h
          rw [← h]
          exact index_fault _ _ _ h4
        | ok oa =>
          simp only [h4] at h
          cases oa with
          | none => simp at h
          | some act =>
            cases act with
            | shift t => simp at h
            | accept b =>
              simp only [Except.error.injEq] at h
              rw [← h]
              rfl
            | reduce p =>
              simp only [Except.error.injEq] at h
              rw [← h]
              rfl

theorem Error_loop_fault (T : Tables) :
    ∀ (fuel : Nat) (recovered : Bool) (P : Parser) (scanner : Scanner) (f : Fault),
      Error.loop T fuel recovered P scanner = .error f → f.isPanic = false := by
  have hcont : ∀ (recovered : Bool) (P : Parser) (g : Fault),
      Error.continues T recovered P = .error g → g.isPanic = false := by
    intro recovered P g h
    unfold Error.continues at h
    split at h
    · simp at h
    · split at h
      · simp only [Except.error.injEq] at h
        rw [← h]
        rfl
      · simp at h
  intro fuel
  induction fuel with
  | zero =>
    intro recovered P scanner f h
    unfold Error.loop at h
    cases hc : Error.continues T recovered P with
    | error g =>
      simp only [hc, Except.error.injEq] at h
      rw [← h]
      exact hcont _ _ _ hc
    | ok c =>
      cases c with
      | false => simp [hc] at h
      | true =>
        simp only [hc, Except.error.injEq] at h
        rw [← h]
        rfl
  | succ fuel ih =>
    intro recovered P scanner f h
    unfold Error.loop at h
    cases hc : Error.continues T recovered P with
    | error g =>
      simp only [hc, Except.error.injEq] at h
      rw [← h]
      exact hcont _ _ _ hc
    | ok c =>
      cases c with
      | false => simp [hc] at h
      | true =>
        simp only [hc] at h
        cases hl : lookahead T { P with nextToken := some scanner.Scan.1 } with
        | error g =>
          simp only [hl, Except.error.injEq] at h
          rw [← h]
          exact lookahead_fault _ _ _ hl
        | ok a =>
          simp only [hl] at h
          exact ih _ _ _ _ h

theorem Error_fault (T : Tables) (fuel : Nat) (P : Parser) (err : Option String)
    (scanner : Scanner) (f : Fault)
    (h : Error T fuel P err scanner = .error f) : f.isPanic = false := by
  unfold Error at h
  cases h1 : Error.enter T P err with
  | error g =>
    simp only [h1, Except.error.injEq] at h
    rw [← h]
    exact Error_enter_fault _ _ _ _ h1
  | ok res =>
    obtain ⟨ea, P1, pushed⟩ := res
    cases pushed with
    | false => simp [h1] at h
    | true =>
      simp only [h1] at h
      cases h2 : Error.resync T fuel P1 scanner with
      | ok res => simp [h2] at h
      | error g =>
        simp only [h2, Except.error.injEq] at h
        rw [← h]
        unfold Error.resync at h2
        cases h3 : lookahead T P1 with
        | error g1 =>
          simp only [h3, Except.error.injEq] at h2
          rw [← h2]
          exact lookahead_fault _ _ _ h3
        | ok a =>
          simp only [h3] at h2
          exact Error_loop_fault T _ _ _ _ _ h2

theorem newError_fault (T : Tables) (P : Parser) (err : Option String) (f : Fault)
    (h : newError T P err = .error f) : f.isPanic = false := by
  unfold newError at h
  cases h1 : P.stack.top with
  | error g =>
    simp only [h1, Except.error.injEq] at h
    rw [← h]
    exact index_fault _ _ _ h1
  | ok s =>
    simp only [h1] at h
    cases h2 : P.nextToken with
    | none =>
      simp only [h2, Except.error.injEq] at h
      rw [← h]
      rfl
    | some tok =>
      simp only [h2] at h
      cases err with
      | some e => simp at h
      | none =>
        simp only at h
        cases h3 : index T.actionTab s with
        | error g =>
          simp only [h3, Except.error.injEq] at h
          rw [← h]
          exact index_fault _ _ _ h3
        | ok row => simp [h3] at h

theorem dispatch_fault (T : Tables) (P : Parser) (scanner : Scanner) (a : action) (f : Fault)
    (h : Parse.dispatch T P scanner a = .error f) : f.isPanic = false := by
  cases a with
  | accept b =>
    unfold Parse.dispatch at h
    cases h1 : P.stack.popN 1 with
    | error g =>
      simp only [h1, Except.error.injEq] at h
      rw [← h]
      exact popN_fault _ _ _ h1
    | ok res =>
      obtain ⟨popped, rest⟩ := res
      simp only [h1] at h
      cases h2 : index popped 0 with
      | error g =>
        simp only [h2, Except.error.injEq] at h
        rw [← h]
        exact index_fault _ _ _ h2
      | ok x => simp [h2] at h
  | shift t =>
    unfold Parse.dispatch at h
    cases h1 : P.nextToken with
    | none =>
      simp only [h1, Except.error.injEq] at h
      rw [← h]
      rfl
    | some tok => simp [h1] at h
  | reduce p =>
    unfold Parse.dispatch at h
    cases h1 : index T.productionsTable p with
    | error g =>
      simp only [h1, Except.error.injEq] at h
      rw [← h]
      exact index_fault _ _ _ h1
    | ok prod =>
      simp only [h1] at h
      cases h2 : P.stack.popN prod.NumSymbols with
      | error g =>
        simp only [h2, Except.error.injEq] at h
        rw [← h]
        exact popN_fault _ _ _ h2
      | ok res =>
        obtain ⟨popped, rest⟩ := res
        simp only [h2] at h
        cases h3 : prod.ReduceFunc popped with
        | error g =>
          simp only [h3, Except.error.injEq] at h
          rw [← h]
          rfl
        | ok out =>
          obtain ⟨attrib, e⟩ := out
          cases e with
          | some msg =>
            simp only [h3] at h
            cases h4 : newError T { P with stack := rest } (some msg) with
            | error g =>
              simp only [h4, Except.error.injEq] at h
              rw [← h]
              exact newError_fault _ _ _ _ h4
            | ok m => simp [h4] at h
          | none =>
            simp only [h3] at h
            cases h4 : rest.top with
            | error g =>
              simp only [h4, Except.error.injEq] at h
              rw [← h]
              exact index_fault _ _ _ h4
            | ok s =>
              simp only [h4] at h
              cases h5 : index T.gotoTab s with
              | error g =>
                simp only [h5, Except.error.injEq] at h
                rw [← h]
                exact index_fault _ _ _ h5
              | ok gotoRow =>
                simp only [h5] at h
                cases h6 : index gotoRow prod.NTType with
                | error g =>
                  simp only [h6, Except.error.injEq] at h
                  rw [← h]
                  exact index_fault _ _ _ h6
                | ok nextState => simp [h6] at h

theorem iter_fault (T : Tables) (fuel : Nat) (P : Parser) (scanner : Scanner) (f : Fault)
    (h : Parse.iter T fuel P scanner = .error f) : f.isPanic = false := by
  unfold Parse.iter at h
  cases h1 : lookahead T P with
  | error g =>
    simp only [h1, Except.error.injEq] at h
    rw [← h]
    exact lookahead_fault _ _ _ h1
  | ok oa =>
    cases oa with
    | some a =>
      simp only [h1] at h
      exact dispatch_fault _ _ _ _ _ h
    | none =>
      simp only [h1] at h
      cases h2 : Error T fuel P none scanner with
      | error g =>
        simp only [h2, Except.error.injEq] at h
        rw [← h]
        exact Error_fault _ _ _ _ _ _ h2
      | ok r =>
        simp only [h2] at h
        by_cases hrec : r.recovered = false
        · simp only [hrec, if_true] at h
          cases h3 : newError T { r.P with nextToken := r.errorAttrib.ErrorToken } none with
          | error g =>
            simp only [h3, Except.error.injEq] at h
            rw [← h]
            exact newError_fault _ _ _ _ h3
          | ok m => simp [h3] at h
        · simp only [hrec, if_false] at h
          have hrt : r.recovered = true := by simpa using hrec
          obtain ⟨_, _, _, _, _, _, _, _, hsome⟩ := Error_ok T fuel P none scanner r h2
          obtain ⟨x, hx⟩ := hsome hrt
          simp only [hx] at h
          exact dispatch_fault _ _ _ _ _ h

theorem loop_fault (T : Tables) :
    ∀ (fuel : Nat) (P : Parser) (scanner : Scanner) (f : Fault),
      Parse.loop T fuel P scanner = .error f → f.isPanic = false := by
  intro fuel
  induction fuel with
  | zero =>
    intro P scanner f h
    simp only [Parse.loop, Except.error.injEq] at h
    rw [← h]
    rfl
  | succ fuel ih =>
    intro P scanner f h
    unfold Parse.loop at h
    cases h1 : Parse.iter T fuel P scanner with
    | error g =>
      simp only [h1, Except.error.injEq] at h
      rw [← h]
      exact iter_fault _ _ _ _ _ h1
    | ok st =>
      cases st with
      | next P1 sc1 =>
        simp only [h1] at h
        exact ih _ _ _ h
      | accepted res P1 sc1 => simp [h1] at h
      | failed msg P1 sc1 => simp [h1] at h

/-- C10: whenever `Parser.Error` returns `recovered = true`, `actionTab` has a
non-nil action for the state on top of the stack and the type of the current
lookahead; hence no loop iteration of `Parse` and no run of `Parse` ends in the
panic "Error recovery led to invalid action" (nor in any other explicit panic
of the runtime), for every table, parser, token stream and budget. -/
theorem recovery_leads_to_valid_action (T : Tables) (fuel : Nat) (P : Parser)
    (scanner : Scanner) :
    (∀ (err : Option String) (r : ErrorResult),
      Error T fuel P err scanner = .ok r → r.recovered = true →
      ∃ a, lookahead T r.P = .ok (some a)) ∧
    Parse.iter T fuel P scanner ≠ .error (.panic "Error recovery led to invalid action") ∧
    Parse T fuel P scanner ≠ .error (.panic "Error recovery led to invalid action") ∧
    (∀ msg, Parse.iter T fuel P scanner ≠ .error (.panic msg)) ∧
    (∀ msg, Parse T fuel P scanner ≠ .error (.panic msg)) := by
  have hiter : ∀ msg, Parse.iter T fuel P scanner ≠ .error (.panic msg) := by
    intro msg h
    have := iter_fault T fuel P scanner _ h
    exact absurd this (by simp [Fault.isPanic])
  have hparse : ∀ msg, Parse T fuel P scanner ≠ .error (.panic msg) := by
    intro msg h
    have := loop_fault T fuel _ _ _ h
    exact absurd this (by simp [Fault.isPanic])
  refine ⟨?_, hiter _, hparse _, hiter, hparse⟩
  intro err r h hrec
  obtain ⟨_, _, _, _, _, _, _, _, hsome⟩ := Error_ok T fuel P err scanner r h
  exact hsome hrec

/-- Witness for C10: the recovery of the parser stuck on `b` in `a b c ;` ends
on `;`, for which the new top state 2 has an action. -/
theorem recovery_leads_to_valid_action_witness :
    ∃ a, lookahead recoveryTables
      { stack := ⟨[0, 2], [Attrib.nil, Attrib.error
          { Err := none, ErrorToken := some (idTok "b" 1),
            ErrorSymbols := [Attrib.tok (idTok "a" 0)],
            ExpectedTokens := ["id", "error"] }]⟩,
        nextToken := some (semiTok 3), pos := 0 } = .ok (some a) :=
  (recovery_leads_to_valid_action recoveryTables 5 stuckOnId restOfInput).1 none
    { recovered := true,
      errorAttrib := { Err := none, ErrorToken := some (idTok "b" 1),
                       ErrorSymbols := [Attrib.tok (idTok "a" 0)],
                       ExpectedTokens := ["id", "error"] },
      P := { stack := ⟨[0, 2], [Attrib.nil, Attrib.error
                { Err := none, ErrorToken := some (idTok "b" 1),
                  ErrorSymbols := [Attrib.tok (idTok "a" 0)],
                  ExpectedTokens := ["id", "error"] }]⟩,
             nextToken := some (semiTok 3), pos := 0 },
      scanner := { src := restOfInput.src, pos := 4 } }
    rfl rfl

/-! ## The stack contract -/

/-- C17: `popN(count)` aborts (slice bounds out of range) whenever `count`
exceeds the depth of the stack, and then returns no list of attributes; for
every `count` from 0 to the depth inclusive it returns. -/
theorem popN_fails_beyond_depth (st : stack) (count : Int)
    (hlen : st.attrib.length = st.state.length) :
    ((st.state.length : Int) < count →
      st.popN count = .error .sliceBounds ∧ ∀ r, st.popN count ≠ .ok r) ∧
    (0 ≤ count → count ≤ (st.state.length : Int) →
      ∃ popped rest, st.popN count = .ok (popped, rest) ∧
        popped.length = count.toNat) := by
  constructor
  · intro h
    have hb : ((st.state.length : Int) - count < 0) ∨
        ((st.state.length : Int) < (st.state.length : Int) - count) ∨
        ((st.attrib.length : Int) < (st.state.length : Int)) := Or.inl (by omega)
    have he : st.popN count = .error .sliceBounds := by
      unfold stack.popN
      simp only
      rw [if_pos hb]
    refine ⟨he, ?_⟩
    intro r hr
    rw [he] at hr
    exact Except.noConfusion hr
  · intro h0 hd
    obtain ⟨n, rfl⟩ := Int.eq_ofNat_of_zero_le h0
    refine ⟨_, _, popN_eq st n (by omega) hlen, ?_⟩
    simp only [List.length_drop, Int.toNat_ofNat]
    omega

/-- Witness for C17: on a stack of depth three, popping four entries aborts
and popping three returns. -/
theorem popN_fails_beyond_depth_witness :
    (stack.mk [0, 4, 7] [Attrib.nil, Attrib.node "a" [], Attrib.node "b" []]).popN 4
      = .error .sliceBounds ∧
    ∃ popped rest,
      (stack.mk [0, 4, 7] [Attrib.nil, Attrib.node "a" [], Attrib.node "b" []]).popN 3
        = .ok (popped, rest) ∧ popped.length = (3 : Int).toNat :=
  ⟨((popN_fails_beyond_depth
      (stack.mk [0, 4, 7] [Attrib.nil, Attrib.node "a" [], Attrib.node "b" []]) 4 rfl).1
      (by decide)).1,
   (popN_fails_beyond_depth
      (stack.mk [0, 4, 7] [Attrib.nil, Attrib.node "a" [], Attrib.node "b" []]) 3 rfl).2
      (by decide) (by decide)⟩

/-- C18: push and pop are inverse.  On a stack whose sequences have equal
length, `push(s, a)` followed by `popN(1)` returns `[a]` and restores the
stack; after `push(s, a)`, `top()` is `s`, `topIndex()` is the old depth and
`peek(topIndex())` is `top()`. -/
theorem push_popN_inverse (st : stack) (s : Int) (a : Attrib)
    (hlen : st.attrib.length = st.state.length) :
    (st.push s a).popN 1 = .ok ([a], st) ∧
    (st.push s a).top = .ok s ∧
    (st.push s a).topIndex = (st.state.length : Int) ∧
    (st.push s a).peek (st.push s a).topIndex = (st.push s a).top ∧
    (st.push s a).state.length = st.state.length + 1 ∧
    (st.push s a).attrib.length = st.attrib.length + 1 := by
  have hpop := popN_eq (st.push s a) 1
    (by simp [stack.push]) (by simp [stack.push, hlen])
  have hk : (st.push s a).state.length - 1 = st.state.length := by simp [stack.push]
  rw [hk] at hpop
  refine ⟨?_, ?_, ?_, rfl, ?_, ?_⟩
  · have hc : ((1 : Nat) : Int) = 1 := rfl
    rw [← hc, hpop]
    cases st with
    | mk state attrib =>
      simp only at hlen
      simp [stack.push, ← hlen]
  · rw [top_ok_iff]
    simp [stack.push]
  · simp [stack.topIndex, stack.push]
  · simp [stack.push]
  · simp [stack.push]

/-- Witness for C18: pushing onto and popping off a stack of depth two. -/
theorem push_popN_inverse_witness :
    ((stack.mk [0, 3] [Attrib.nil, Attrib.node "a" []]).push 5 (Attrib.node "b" [])).popN 1
      = .ok ([Attrib.node "b" []], stack.mk [0, 3] [Attrib.nil, Attrib.node "a" []]) ∧
    ((stack.mk [0, 3] [Attrib.nil, Attrib.node "a" []]).push 5 (Attrib.node "b" [])).top
      = .ok 5 :=
  let h := push_popN_inverse (stack.mk [0, 3] [Attrib.nil, Attrib.node "a" []]) 5
    (Attrib.node "b" []) rfl
  ⟨h.1, h.2.1⟩

/-! ## The accept and shift steps -/

/-- C13: on an accept action over a stack of depth `d ≥ 1`, `Parse` pops
exactly one entry and returns the attribute `x` of that entry with a nil
error; the scanner is the one before the step (no token is pulled) and the
step reads none of the tables (no semantic action is called). -/
theorem accept_step (T : Tables) (fuel : Nat) (P : Parser) (scanner : Scanner)
    (b : Bool) (d : Nat) (x : Attrib)
    (hs : P.stack.state.length = d) (ha : P.stack.attrib.length = d) (hd : 1 ≤ d)
    (hx : P.stack.attrib[d - 1]? = some x) :
    Parse.dispatch T P scanner (action.accept b) =
      .ok (Step.accepted x
        { P with stack := stack.mk (P.stack.state.take (d - 1)) (P.stack.attrib.take (d - 1)) }
        scanner) ∧
    (∀ T1 : Tables, Parse.dispatch T1 P scanner (action.accept b) =
      Parse.dispatch T P scanner (action.accept b)) ∧
    (lookahead T P = .ok (some (action.accept b)) →
      Parse.iter T fuel P scanner =
        .ok (Step.accepted x
          { P with stack := stack.mk (P.stack.state.take (d - 1)) (P.stack.attrib.take (d - 1)) }
          scanner) ∧
      Parse.loop T (fuel + 1) P scanner =
        .ok { res := x, err := none,
              P := { P with stack := stack.mk (P.stack.state.take (d - 1))
                                              (P.stack.attrib.take (d - 1)) },
              scanner := scanner }) := by
  have hpop : P.stack.popN 1 = .ok (P.stack.attrib.drop (d - 1),
      stack.mk (P.stack.state.take (d - 1)) (P.stack.attrib.take (d - 1))) := by
    have := popN_eq P.stack 1 (by omega) (by omega)
    rw [hs] at this
    exact this
  have hidx : index (P.stack.attrib.drop (d - 1)) 0 = .ok x := by
    rw [index_ok_iff]
    refine ⟨le_refl _, ?_⟩
    simpa using hx
  have hdisp : Parse.dispatch T P scanner (action.accept b) =
      .ok (Step.accepted x
        { P with stack := stack.mk (P.stack.state.take (d - 1)) (P.stack.attrib.take (d - 1)) }
        scanner) := by
    simp only [Parse.dispatch, hpop, hidx]
  refine ⟨hdisp, fun T1 => rfl, ?_⟩
  intro hla
  have hiter : Parse.iter T fuel P scanner =
      .ok (Step.accepted x
        { P with stack := stack.mk (P.stack.state.take (d - 1)) (P.stack.attrib.take (d - 1)) }
        scanner) := by
    simp only [Parse.iter, hla, hdisp]
  refine ⟨hiter, ?_⟩
  simp only [Parse.loop, hiter]

/-- Witness for C13: the accept at the end of the parse of `a`. -/
theorem accept_step_witness :
    Parse.loop astxTables 1 beforeAccept afterFirstToken =
      .ok { res := Attrib.node "StmtList" [Attrib.node "Stmt" [Attrib.tok (idTok "a" 0)]],
            err := none,
            P := { beforeAccept with stack := stack.mk [0] [Attrib.nil] },
            scanner := afterFirstToken } :=
  ((accept_step astxTables 0 beforeAccept afterFirstToken true 2
      (Attrib.node "StmtList" [Attrib.node "Stmt" [Attrib.tok (idTok "a" 0)]])
      rfl rfl (by decide) rfl).2.2 rfl).2

/-- C14: on a shift action to state `n` with lookahead `tok`, `Parse` pushes
exactly the one entry `(n, tok)`, the entries below are the old stack, and the
lookahead becomes the next token of the source, the scanner having moved by
one `Scan`. -/
theorem shift_step (T : Tables) (fuel : Nat) (P : Parser) (scanner : Scanner)
    (n : Int) (tok : Token) (htok : P.nextToken = some tok) :
    ∃ P1 : Parser,
      Parse.dispatch T P scanner (action.shift n) =
        .ok (Step.next P1 { scanner with pos := scanner.pos + 1 }) ∧
      P1.stack.state = P.stack.state ++ [n] ∧
      P1.stack.attrib = P.stack.attrib ++ [Attrib.tok tok] ∧
      P1.stack.state.take P.stack.state.length = P.stack.state ∧
      P1.stack.attrib.take P.stack.attrib.length = P.stack.attrib ∧
      P1.nextToken = some (scanner.src scanner.pos) ∧
      (lookahead T P = .ok (some (action.shift n)) →
        Parse.iter T fuel P scanner =
          .ok (Step.next P1 { scanner with pos := scanner.pos + 1 })) := by
  have hdisp : Parse.dispatch T P scanner (action.shift n) =
      .ok (Step.next { P with stack := P.stack.push n (Attrib.tok tok),
                              nextToken := some scanner.Scan.1 } scanner.Scan.2) := by
    simp only [Parse.dispatch, htok]
  refine ⟨_, hdisp, rfl, rfl, ?_, ?_, rfl, ?_⟩
  · simp [stack.push]
  · simp [stack.push]
  · intro hla
    simp only [Parse.iter, hla, hdisp]
    rfl

/-- Witness for C14: the shift of `a` at the start of its parse. -/
theorem shift_step_witness :
    ∃ P1 : Parser,
      Parse.dispatch astxTables beforeShift afterFirstToken (action.shift 3) =
        .ok (Step.next P1 { afterFirstToken with pos := 2 }) ∧
      P1.stack.state = [0, 3] ∧
      P1.stack.attrib = [Attrib.nil, Attrib.tok (idTok "a" 0)] ∧
      P1.nextToken = some (eofTok 1) :=
  let ⟨P1, h1, h2, h3, _, _, h6, _⟩ :=
    shift_step astxTables 0 beforeShift afterFirstToken 3 (idTok "a" 0) rfl
  ⟨P1, h1, h2, h3, h6⟩

/-! ## Failures of `Parse` -/

theorem lookahead_ok (T : Tables) (P : Parser) (a : Option action)
    (h : lookahead T P = .ok a) :
    ∃ s row tok, P.stack.top = .ok s ∧ index T.actionTab s = .ok row ∧
      P.nextToken = some tok ∧ index row.actions tok.Typ = .ok a := by
  unfold lookahead at h
  cases h1 : P.stack.top with
  | error g => simp [h1] at h
  | ok s =>
    simp only [h1] at h
    cases h2 : index T.actionTab s with
    | error g => simp [h2] at h
    | ok row =>
      simp only [h2] at h
      cases h3 : P.nextToken with
      | none => simp [h3] at h
      | some tok =>
        simp only [h3] at h
        exact ⟨s, row, tok, rfl, h2, rfl, h⟩

theorem Error_top_row (T : Tables) (fuel : Nat) (P : Parser) (err : Option String)
    (scanner : Scanner) (r : ErrorResult) (h : Error T fuel P err scanner = .ok r) :
    ∃ s row, r.P.stack.top = .ok s ∧ index T.actionTab s = .ok row := by
  unfold Error at h
  cases he : Error.enter T P err with
  | error f => simp [he] at h
  | ok res =>
    obtain ⟨ea, P1, pushed⟩ := res
    cases pushed with
    | false =>
      simp only [he, Except.ok.injEq] at h
      subst h
      obtain ⟨syms, P0, s, row, _, g2, g3, _, g5⟩ := Error_enter_ok T P err _ _ _ he
      rcases g5 with ⟨_, e2, _⟩ | ⟨t, e1, _⟩
      · exact ⟨s, row, by rw [e2]; exact g2, g3⟩
      · exact absurd e1 (by decide)
    | true =>
      simp only [he] at h
      unfold Error.resync at h
      cases hl : lookahead T P1 with
      | error f => simp [hl] at h
      | ok a =>
        simp only [hl] at h
        cases hloop : Error.loop T fuel a.isSome P1 scanner with
        | error f => simp [hloop] at h
        | ok res =>
          obtain ⟨recovered, P2, scanner2⟩ := res
          simp only [hloop, Except.ok.injEq] at h
          subst h
          obtain ⟨e1, _⟩ := Error_loop_frame T _ _ _ _ _ hloop
          obtain ⟨s, row, _, g1, g2, _⟩ := lookahead_ok T P1 a hl
          refine ⟨s, row, ?_, g2⟩
          show P2.stack.top = .ok s
          have e1' : P2.stack = P1.stack := e1
          rw [e1']
          exact g1

/-- C11, as the code has it: when the `ReduceFunc` of production `p` returns an
error `e` in a reduce step that leaves at least one entry on the stack
(`NumSymbols` below the depth), `Parse` stops at once: it returns a nil result and the error of `newError(e)`, which carries
`e`, the top state after the pop and the lookahead.  The stack is the one
after the pop (nothing is pushed, no error state either), and the scanner is
untouched; this holds whatever the `canRecover` flags of the table are. -/
theorem reduce_failure_stops (T : Tables) (fuel : Nat) (P : Parser) (scanner : Scanner)
    (p : Int) (prod : ProdTabEntry) (d n : Nat) (s : Int) (tok : Token)
    (e : String) (value : Attrib)
    (hs : P.stack.state.length = d) (ha : P.stack.attrib.length = d)
    (htok : P.nextToken = some tok)
    (hprod : index T.productionsTable p = .ok prod)
    (hnum : prod.NumSymbols = (n : Int)) (hn : n < d)
    (hred : prod.ReduceFunc (P.stack.attrib.drop (d - n)) = .ok (value, some e))
    (htop : P.stack.state[d - n - 1]? = some s) :
    Parse.dispatch T P scanner (action.reduce p) =
      .ok (Step.failed { state := s, token := tok, tail := .inl e }
        { P with stack := stack.mk (P.stack.state.take (d - n)) (P.stack.attrib.take (d - n)) }
        scanner) ∧
    (lookahead T P = .ok (some (action.reduce p)) →
      Parse.loop T (fuel + 1) P scanner =
        .ok { res := Attrib.nil,
              err := some { state := s, token := tok, tail := .inl e },
              P := { P with stack := stack.mk (P.stack.state.take (d - n))
                                              (P.stack.attrib.take (d - n)) },
              scanner := scanner }) := by
  have hpop : P.stack.popN prod.NumSymbols =
      .ok (P.stack.attrib.drop (d - n),
           stack.mk (P.stack.state.take (d - n)) (P.stack.attrib.take (d - n))) := by
    rw [hnum]
    have := popN_eq P.stack n (by omega) (by omega)
    rw [hs] at this
    exact this
  have htop1 : (stack.mk (P.stack.state.take (d - n)) (P.stack.attrib.take (d - n))).top
      = .ok s :=
    top_take P.stack.state _ (d - n) s (by omega) (by omega) htop
  have hnew : newError T
      { P with stack := stack.mk (P.stack.state.take (d - n)) (P.stack.attrib.take (d - n)) }
      (some e) = .ok { state := s, token := tok, tail := .inl e } := by
    simp only [newError, htop1, htok]
  have hdisp : Parse.dispatch T P scanner (action.reduce p) =
      .ok (Step.failed { state := s, token := tok, tail := .inl e }
        { P with stack := stack.mk (P.stack.state.take (d - n)) (P.stack.attrib.take (d - n)) }
        scanner) := by
    simp only [Parse.dispatch, hprod, hpop, hred, hnew]
  refine ⟨hdisp, ?_⟩
  intro hla
  simp only [Parse.loop, Parse.iter, hla, hdisp]

/-- Witness for C11: in the parse of the input `bad` over `strictTables`, the
reduction `Stmt : id` calls `ast.NewStmt`, which fails; the recoverable state 0
is on the stack, yet `Parse` returns the error at once.  The configuration is
the one the parse reaches from a new parser. -/
theorem reduce_failure_stops_witness :
    Parse.loop strictTables 1 afterShiftBad afterBad =
      .ok { res := Attrib.nil,
            err := some { state := 0, token := eofTok 1, tail := .inl "bad statement" },
            P := { afterShiftBad with stack := stack.mk [0] [Attrib.nil] },
            scanner := afterBad } ∧
    canRecoverAt strictTables afterShiftBad.stack 0 = some true ∧
    Parse strictTables 2 NewParser (scannerOf [idTok "bad" 0]) =
      .ok { res := Attrib.nil,
            err := some { state := 0, token := eofTok 1, tail := .inl "bad statement" },
            P := { afterShiftBad with stack := stack.mk [0] [Attrib.nil] },
            scanner := afterBad } :=
  ⟨(reduce_failure_stops strictTables 0 afterShiftBad afterBad 3
      ((productionsTable strictAst).get ⟨3, by decide⟩) 2 1 0 (eofTok 1)
      "bad statement" Attrib.nil rfl rfl rfl rfl rfl (by decide) rfl rfl).2 rfl,
    rfl, rfl⟩

/-- Counterexample to C11 as stated: with a table whose state 0 reduces by a
one-symbol production, the reduction pops the bottom entry, the semantic
action returns its error, and `newError` aborts on `top()` of the empty stack:
`Parse` returns neither a result nor an error, for every budget. -/
theorem reduce_failure_on_emptied_stack_aborts :
    lookahead emptyingTables
      { NewParser.Reset with nextToken := some (scannerOf []).Scan.1 }
      = .ok (some (action.reduce 0)) ∧
    NewParser.Reset.stack.popN 1 = .ok ([Attrib.nil], stack.mk [] []) ∧
    (∃ prod, index emptyingTables.productionsTable 0 = .ok prod ∧ prod.NumSymbols = 1 ∧
      prod.ReduceFunc [Attrib.nil] = .ok (Attrib.nil, some "rejected")) ∧
    (∀ fuel, Parse emptyingTables (fuel + 1) NewParser (scannerOf [])
      = .error .indexOutOfRange) ∧
    (∀ fuel r, Parse emptyingTables fuel NewParser (scannerOf []) ≠ .ok r) := by
  have hrun : ∀ fuel, Parse emptyingTables (fuel + 1) NewParser (scannerOf [])
      = .error .indexOutOfRange := fun _ => rfl
  refine ⟨rfl, rfl, ⟨_, rfl, rfl, rfl⟩, hrun, ?_⟩
  intro fuel r h
  cases fuel with
  | zero => exact Except.noConfusion h
  | succ n =>
    rw [hrun n] at h
    exact Except.noConfusion h

/-- C12: when the lookahead `tok` has no action at the top state and
`Parser.Error` returns `recovered = false`, the iteration ends `Parse` with a
nil result and a non-nil error whose token is `tok`, the lookahead at the
moment the missing action was found, also when the resynchronisation has
moved the scanner past later tokens.  The lookahead of the parser is set back
to `tok` as well. -/
theorem recovery_failure_reports_offending_token (T : Tables) (fuel : Nat) (P : Parser)
    (scanner : Scanner) (tok : Token) (r : ErrorResult)
    (htok : P.nextToken = some tok)
    (hnone : lookahead T P = .ok none)
    (herr : Error T fuel P none scanner = .ok r)
    (hfail : r.recovered = false) :
    ∃ msg : ErrorMessage,
      msg.token = tok ∧
      Parse.iter T fuel P scanner =
        .ok (Step.failed msg { r.P with nextToken := some tok } r.scanner) ∧
      Parse.loop T (fuel + 1) P scanner =
        .ok { res := Attrib.nil, err := some msg,
              P := { r.P with nextToken := some tok }, scanner := r.scanner } ∧
      scanner.pos ≤ r.scanner.pos := by
  obtain ⟨P1, pushed, h1, _, _, _, h5, _⟩ := Error_ok T fuel P none scanner r herr
  have hET : r.errorAttrib.ErrorToken = some tok := by
    rw [(Error_enter_nextToken T P none _ _ _ h1).2, htok]
  obtain ⟨s, row, g1, g2⟩ := Error_top_row T fuel P none scanner r herr
  have hnew : newError T { r.P with nextToken := some tok } none =
      .ok { state := s, token := tok, tail := .inr (expectedFrom T 0 row.actions []) } := by
    simp only [newError, g1, g2]
  have hiter : Parse.iter T fuel P scanner =
      .ok (Step.failed
        { state := s, token := tok, tail := .inr (expectedFrom T 0 row.actions []) }
        { r.P with nextToken := some tok } r.scanner) := by
    simp only [Parse.iter, hnone, herr, hfail, if_true, hET, hnew]
  refine ⟨_, rfl, hiter, ?_, h5⟩
  simp only [Parse.loop, hiter]

/-- Witness for C12: stuck on `b` in the input `a b c`, the resynchronisation
skips `c`, fails at the end of input, and the error reports `b`. -/
theorem recovery_failure_reports_offending_token_witness :
    ∃ msg : ErrorMessage,
      msg.token = idTok "b" 1 ∧
      Parse.loop noResyncTables 3 stuckOnId restWithoutSemi =
        .ok { res := Attrib.nil, err := some msg,
              P := { stack := ⟨[0, 2], [Attrib.nil, Attrib.error
                        { Err := none, ErrorToken := some (idTok "b" 1),
                          ErrorSymbols := [Attrib.tok (idTok "a" 0)],
                          ExpectedTokens := ["id", "error"] }]⟩,
                     nextToken := some (idTok "b" 1), pos := 0 },
              scanner := { src := restWithoutSemi.src, pos := 4 } } :=
  let ⟨msg, h1, _, h3, _⟩ :=
    recovery_failure_reports_offending_token noResyncTables 2 stuckOnId restWithoutSemi
      (idTok "b" 1)
      { recovered := false,
        errorAttrib := { Err := none, ErrorToken := some (idTok "b" 1),
                         ErrorSymbols := [Attrib.tok (idTok "a" 0)],
                         ExpectedTokens := ["id", "error"] },
        P := { stack := ⟨[0, 2], [Attrib.nil, Attrib.error
                  { Err := none, ErrorToken := some (idTok "b" 1),
                    ErrorSymbols := [Attrib.tok (idTok "a" 0)],
                    ExpectedTokens := ["id", "error"] }]⟩,
               nextToken := some (eofTok 3), pos := 0 },
        scanner := { src := restWithoutSemi.src, pos := 4 } }
      rfl rfl rfl rfl
  ⟨msg, h1, h3⟩

/-! ## The example productions table -/

theorem index_cons_zero {α : Type} (x : α) (rest : List α) :
    index (x :: rest) 0 = .ok x := by
  rw [index_ok_iff]
  simp

theorem index_cons_one {α : Type} (x y : α) (rest : List α) :
    index (x :: y :: rest) 1 = .ok y := by
  rw [index_ok_iff]
  simp

/-- C19: the table `productionsTable` of the example is well formed.  It has
four entries, the `Index` of the entry at position `i` is `i`, the numbers of
symbols are 1, 1, 2, 1, and every `ReduceFunc` reads only the first
`NumSymbols` arguments: on a list of exactly that length (which is what
`popN(NumSymbols)` hands over) its own indexing never aborts and the result is
the one of the `ast` function on those arguments; production 0 returns its one
argument with a nil error. -/
theorem productionsTable_wellFormed (ast : Ast) :
    (productionsTable ast).length = 4 ∧
    (productionsTable ast).map (fun e => e.Index) = [0, 1, 2, 3] ∧
    (productionsTable ast).map (fun e => e.NumSymbols) = [1, 1, 2, 1] ∧
    (∀ (i : Nat) (prod : ProdTabEntry), (productionsTable ast)[i]? = some prod →
      prod.Index = (i : Int) ∧
      ∀ X : List Attrib, prod.NumSymbols.toNat ≤ X.length →
        prod.ReduceFunc X = prod.ReduceFunc (X.take prod.NumSymbols.toNat)) ∧
    (∀ (st : stack) (items : Int) (popped : List Attrib) (rest : stack),
      st.attrib.length = st.state.length → st.popN items = .ok (popped, rest) →
      (popped.length : Int) = items) ∧
    (∀ (prod : ProdTabEntry) (x : Attrib), (productionsTable ast)[0]? = some prod →
      prod.ReduceFunc [x] = .ok (x, none)) ∧
    (∀ (prod : ProdTabEntry) (x : Attrib), (productionsTable ast)[1]? = some prod →
      prod.ReduceFunc [x] = ast.NewStmtList x) ∧
    (∀ (prod : ProdTabEntry) (x y : Attrib), (productionsTable ast)[2]? = some prod →
      prod.ReduceFunc [x, y] = ast.AppendStmt x y) ∧
    (∀ (prod : ProdTabEntry) (x : Attrib), (productionsTable ast)[3]? = some prod →
      prod.ReduceFunc [x] = ast.NewStmt x) := by
  refine ⟨rfl, rfl, rfl, ?_, ?_, ?_, ?_, ?_, ?_⟩
  · intro i prod h
    have hi : i < 4 := by
      rcases Nat.lt_or_ge i 4 with h1 | h1
      · exact h1
      · have hlen : (productionsTable ast).length ≤ i := h1
        rw [List.getElem?_eq_none hlen] at h
        exact absurd h (by simp)
    have hcases : i = 0 ∨ i = 1 ∨ i = 2 ∨ i = 3 := by omega
    rcases hcases with rfl | rfl | rfl | rfl
    · simp only [productionsTable, List.getElem?_cons_zero, Option.some.injEq] at h
      subst h
      refine ⟨rfl, ?_⟩
      intro X hX
      cases X with
      | nil => simp at hX
      | cons x rest => simp [index_cons_zero]
    · simp only [productionsTable, List.getElem?_cons_succ, List.getElem?_cons_zero,
        Option.some.injEq] at h
      subst h
      refine ⟨rfl, ?_⟩
      intro X hX
      cases X with
      | nil => simp at hX
      | cons x rest => simp [index_cons_zero]
    · simp only [productionsTable, List.getElem?_cons_succ, List.getElem?_cons_zero,
        Option.some.injEq] at h
      subst h
      refine ⟨rfl, ?_⟩
      intro X hX
      cases X with
      | nil => simp at hX
      | cons x rest =>
        cases rest with
        | nil => simp at hX
        | cons y rest2 => simp [index_cons_zero, index_cons_one]
    · simp only [productionsTable, List.getElem?_cons_succ, List.getElem?_cons_zero,
        Option.some.injEq] at h
      subst h
      refine ⟨rfl, ?_⟩
      intro X hX
      cases X with
      | nil => simp at hX
      | cons x rest => simp [index_cons_zero]
  · intro st items popped rest hlen h
    obtain ⟨k, k1, k2, k3, _, _, k6⟩ := popN_ok _ _ _ _ h
    rw [k6]
    simp only [List.length_drop, List.length_take]
    omega
  · intro prod x h
    simp only [productionsTable, List.getElem?_cons_zero, Option.some.injEq] at h
    subst h
    simp [index_cons_zero]
  · intro prod x h
    simp only [productionsTable, List.getElem?_cons_succ, List.getElem?_cons_zero,
      Option.some.injEq] at h
    subst h
    simp [index_cons_zero]
  · intro prod x y h
    simp only [productionsTable, List.getElem?_cons_succ, List.getElem?_cons_zero,
      Option.some.injEq] at h
    subst h
    simp [index_cons_zero, index_cons_one]
  · intro prod x h
    simp only [productionsTable, List.getElem?_cons_succ, List.getElem?_cons_zero,
      Option.some.injEq] at h
    subst h
    simp [index_cons_zero]

/-! ## Progress of the loop -/

theorem dispatch_next (T : Tables) (P : Parser) (scanner : Scanner) (a : action)
    (P1 : Parser) (sc1 : Scanner)
    (h : Parse.dispatch T P scanner a = .ok (Step.next P1 sc1)) :
    (∃ n, a = action.shift n ∧ P1.stack.topIndex = P.stack.topIndex + 1 ∧
      sc1.pos = scanner.pos + 1 ∧ sc1.src = scanner.src ∧
      P1.nextToken = some (scanner.src scanner.pos)) ∨
    (∃ p prod, a = action.reduce p ∧ index T.productionsTable p = .ok prod ∧
      P1.stack.topIndex = P.stack.topIndex + 1 - prod.NumSymbols ∧
      P1.nextToken = P.nextToken ∧ sc1 = scanner) := by
  cases a with
  | accept b =>
    unfold Parse.dispatch at h
    cases hp : P.stack.popN 1 with
    | error f => simp [hp] at h
    | ok res =>
      obtain ⟨popped, rest⟩ := res
      simp only [hp] at h
      cases hi : index popped 0 with
      | error f => simp [hi] at h
      | ok x => simp [hi] at h
  | shift n =>
    left
    unfold Parse.dispatch at h
    cases hn : P.nextToken with
    | none => simp [hn] at h
    | some tok =>
      simp only [hn, Except.ok.injEq, Step.next.injEq] at h
      obtain ⟨h1, h2⟩ := h
      subst h1
      subst h2
      refine ⟨n, rfl, ?_, rfl, rfl, rfl⟩
      simp only [stack.topIndex, stack.push, List.length_append, List.length_singleton]
      push_cast
      omega
  | reduce p =>
    right
    unfold Parse.dispatch at h
    cases hprod : index T.productionsTable p with
    | error f => simp [hprod] at h
    | ok prod =>
      simp only [hprod] at h
      cases hp : P.stack.popN prod.NumSymbols with
      | error f => simp [hp] at h
      | ok res =>
        obtain ⟨popped, rest⟩ := res
        simp only [hp] at h
        obtain ⟨k, k1, k2, _, k4, _, _⟩ := popN_ok _ _ _ _ hp
        cases hred : prod.ReduceFunc popped with
        | error f => simp [hred] at h
        | ok out =>
          obtain ⟨attrib, e⟩ := out
          cases e with
          | some msg =>
            simp only [hred] at h
            cases hne : newError T { P with stack := rest } (some msg) with
            | error f => simp [hne] at h
            | ok m => simp [hne] at h
          | none =>
            simp only [hred] at h
            cases ht : rest.top with
            | error f => simp [ht] at h
            | ok s =>
              simp only [ht] at h
              cases hg : index T.gotoTab s with
              | error f => simp [hg] at h
              | ok gotoRow =>
                simp only [hg] at h
                cases hn : index gotoRow prod.NTType with
                | error f => simp [hn] at h
                | ok nextState =>
                  simp only [hn, Except.ok.injEq, Step.next.injEq] at h
                  obtain ⟨h1, h2⟩ := h
                  subst h1
                  subst h2
                  refine ⟨p, prod, rfl, hprod, ?_, rfl, rfl⟩
                  have hk : rest.state.length = k := by
                    rw [k4]
                    simp only [List.length_take]
                    omega
                  simp only [stack.topIndex, stack.push, List.length_append,
                    List.length_singleton, hk]
                  push_cast
                  omega

/-- C16, as the code has it: an iteration of the loop of `Parse` that does not
end the parse (accept or failure) performs exactly one shift or one reduce, in
the configuration it starts with or, when the lookahead had no action, in the
one `Parser.Error` leaves after a recovery.  A shift raises `topIndex` by one
and pulls one token; a reduce on production `p` changes `topIndex` by
`1 - NumSymbols` (not at all when `NumSymbols = 1`) and leaves the lookahead
and the scanner as they are. -/
theorem iteration_effect (T : Tables) (fuel : Nat) (P : Parser) (scanner : Scanner)
    (step : Step) (h : Parse.iter T fuel P scanner = .ok step) :
    (∃ res P1 sc1, step = Step.accepted res P1 sc1) ∨
    (∃ msg P1 sc1, step = Step.failed msg P1 sc1) ∨
    (∃ (P1 : Parser) (sc1 : Scanner) (P0 : Parser) (sc0 : Scanner) (a : action),
      step = Step.next P1 sc1 ∧
      lookahead T P0 = .ok (some a) ∧
      ((P0 = P ∧ sc0 = scanner) ∨
        (lookahead T P = .ok none ∧
          ∃ r, Error T fuel P none scanner = .ok r ∧ r.recovered = true ∧
            P0 = r.P ∧ sc0 = r.scanner)) ∧
      ((∃ n, a = action.shift n ∧ P1.stack.topIndex = P0.stack.topIndex + 1 ∧
          sc1.pos = sc0.pos + 1 ∧ sc1.src = sc0.src ∧
          P1.nextToken = some (sc0.src sc0.pos)) ∨
        (∃ p prod, a = action.reduce p ∧ index T.productionsTable p = .ok prod ∧
          P1.stack.topIndex = P0.stack.topIndex + 1 - prod.NumSymbols ∧
          P1.nextToken = P0.nextToken ∧ sc1 = sc0))) := by
  cases step with
  | accepted res P1 sc1 => exact Or.inl ⟨res, P1, sc1, rfl⟩
  | failed msg P1 sc1 => exact Or.inr (Or.inl ⟨msg, P1, sc1, rfl⟩)
  | next P1 sc1 =>
    right
    right
    unfold Parse.iter at h
    cases hl : lookahead T P with
    | error f => simp [hl] at h
    | ok oa =>
      cases oa with
      | some a =>
        simp only [hl] at h
        exact ⟨P1, sc1, P, scanner, a, rfl, hl, Or.inl ⟨rfl, rfl⟩,
          dispatch_next T P scanner a P1 sc1 h⟩
      | none =>
        simp only [hl] at h
        cases he : Error T fuel P none scanner with
        | error f => simp [he] at h
        | ok r =>
          simp only [he] at h
          by_cases hrec : r.recovered = false
          · simp only [hrec, if_true] at h
            cases hne : newError T { r.P with nextToken := r.errorAttrib.ErrorToken } none with
            | error f => simp [hne] at h
            | ok m => simp [hne] at h
          · simp only [hrec, if_false] at h
            have hrt : r.recovered = true := by simpa using hrec
            cases hl2 : lookahead T r.P with
            | error f => simp [hl2] at h
            | ok oa =>
              cases oa with
              | none => simp [hl2] at h
              | some a =>
                simp only [hl2] at h
                exact ⟨P1, sc1, r.P, r.scanner, a, rfl, hl2,
                  Or.inr ⟨rfl, r, rfl, hrt, rfl, rfl⟩,
                  dispatch_next T r.P r.scanner a P1 sc1 h⟩

/-- Witness for C16: the reduction `Stmt : id` in the parse of `a` is a reduce
by a production with one symbol. -/
theorem iteration_effect_witness :
    (∃ res P1 sc1, Step.next afterStmt afterSecondToken = Step.accepted res P1 sc1) ∨
    (∃ msg P1 sc1, Step.next afterStmt afterSecondToken = Step.failed msg P1 sc1) ∨
    (∃ (P1 : Parser) (sc1 : Scanner) (P0 : Parser) (sc0 : Scanner) (a : action),
      Step.next afterStmt afterSecondToken = Step.next P1 sc1 ∧
      lookahead astxTables P0 = .ok (some a) ∧
      ((P0 = afterShift ∧ sc0 = afterSecondToken) ∨
        (lookahead astxTables afterShift = .ok none ∧
          ∃ r, Error astxTables 0 afterShift none afterSecondToken = .ok r ∧
            r.recovered = true ∧ P0 = r.P ∧ sc0 = r.scanner)) ∧
      ((∃ n, a = action.shift n ∧ P1.stack.topIndex = P0.stack.topIndex + 1 ∧
          sc1.pos = sc0.pos + 1 ∧ sc1.src = sc0.src ∧
          P1.nextToken = some (sc0.src sc0.pos)) ∨
        (∃ p prod, a = action.reduce p ∧
          index astxTables.productionsTable p = .ok prod ∧
          P1.stack.topIndex = P0.stack.topIndex + 1 - prod.NumSymbols ∧
          P1.nextToken = P0.nextToken ∧ sc1 = sc0))) :=
  iteration_effect astxTables 0 afterShift afterSecondToken
    (Step.next afterStmt afterSecondToken) rfl

/-- Counterexample to C16 as stated.  In the parse of `a` with the tables of
`astx`, the second iteration (the reduction `Stmt : id`) does not end the parse
and leaves `topIndex` as the first iteration left it.  With the cyclic table,
an iteration returns the very configuration it started from, and the parse of
`a` never ends: it uses up every budget. -/
theorem iteration_keeps_topIndex :
    (∃ (s0 : Step) (P1 : Parser) (sc1 : Scanner),
      (Parse.trace astxTables 4
        { NewParser.Reset with nextToken := some (scannerOf [idTok "a" 0]).Scan.1 }
        (scannerOf [idTok "a" 0]).Scan.2)[0]? = some s0 ∧
      (Parse.trace astxTables 4
        { NewParser.Reset with nextToken := some (scannerOf [idTok "a" 0]).Scan.1 }
        (scannerOf [idTok "a" 0]).Scan.2)[1]? = some (Step.next P1 sc1) ∧
      P1.stack.topIndex = s0.parser.stack.topIndex) ∧
    Parse.iter cyclicTables 0 inCycle afterSecondToken =
      .ok (Step.next inCycle afterSecondToken) ∧
    (∀ fuel, Parse cyclicTables fuel NewParser (scannerOf [idTok "a" 0])
      = .error .outOfFuel) := by
  refine ⟨⟨_, _, _, rfl, rfl, rfl⟩, rfl, ?_⟩
  have hcyc : ∀ fuel, Parse.loop cyclicTables fuel inCycle afterSecondToken
      = .error .outOfFuel := by
    intro fuel
    induction fuel with
    | zero => rfl
    | succ n ih =>
      have hit : Parse.iter cyclicTables n inCycle afterSecondToken =
          .ok (Step.next inCycle afterSecondToken) := rfl
      simp only [Parse.loop, hit, ih]
  intro fuel
  cases fuel with
  | zero => rfl
  | succ n =>
    have hit : Parse.iter cyclicTables n
        { NewParser.Reset with nextToken := some (scannerOf [idTok "a" 0]).Scan.1 }
        (scannerOf [idTok "a" 0]).Scan.2 = .ok (Step.next inCycle afterSecondToken) := rfl
    show Parse.loop cyclicTables (n + 1) _ _ = _
    simp only [Parse.loop, hit, hcyc]

/-! ## Independence of the prior state -/

theorem lookahead_withPos (T : Tables) (P : Parser) (q : Int) :
    lookahead T (P.withPos q) = lookahead T P := rfl

theorem firstRecoveryState_withPos (T : Tables) (P : Parser) (q : Int) :
    firstRecoveryState T (P.withPos q) = firstRecoveryState T P := rfl

theorem newError_withPos (T : Tables) (P : Parser) (q : Int) (err : Option String) :
    newError T (P.withPos q) err = newError T P err := rfl

theorem Error_continues_withPos (T : Tables) (P : Parser) (q : Int) (b : Bool) :
    Error.continues T b (P.withPos q) = Error.continues T b P := rfl

theorem popNonRecoveryStates_withPos (T : Tables) (P : Parser) (q : Int) :
    popNonRecoveryStates T (P.withPos q) =
      (popNonRecoveryStates T P).map (fun x => (x.1, x.2.withPos q)) := by
  unfold popNonRecoveryStates
  rw [firstRecoveryState_withPos]
  cases firstRecoveryState T P with
  | error f => rfl
  | ok res =>
    obtain ⟨rs, b⟩ := res
    cases b with
    | false => rfl
    | true =>
      simp only [if_true]
      have : (P.withPos q).stack = P.stack := rfl
      rw [this]
      cases P.stack.popN (P.stack.topIndex - rs) with
      | error f => rfl
      | ok r => rfl

theorem Error_loop_withPos (T : Tables) (q : Int) :
    ∀ (fuel : Nat) (recovered : Bool) (P : Parser) (scanner : Scanner),
      Error.loop T fuel recovered (P.withPos q) scanner =
        (Error.loop T fuel recovered P scanner).map
          (fun x => (x.1, x.2.1.withPos q, x.2.2)) := by
  intro fuel
  induction fuel with
  | zero =>
    intro recovered P scanner
    unfold Error.loop
    rw [Error_continues_withPos]
    cases Error.continues T recovered P with
    | error f => rfl
    | ok c =>
      cases c with
      | false => rfl
      | true => rfl
  | succ fuel ih =>
    intro recovered P scanner
    unfold Error.loop
    rw [Error_continues_withPos]
    cases Error.continues T recovered P with
    | error f => rfl
    | ok c =>
      cases c with
      | false => rfl
      | true =>
        simp only
        have hl : lookahead T { P.withPos q with nextToken := some scanner.Scan.1 } =
            lookahead T { P with nextToken := some scanner.Scan.1 } := rfl
        rw [hl]
        cases lookahead T { P with nextToken := some scanner.Scan.1 } with
        | error f => rfl
        | ok a =>
          exact ih _ { P with nextToken := some scanner.Scan.1 } _

theorem Error_resync_withPos (T : Tables) (q : Int) (fuel : Nat) (P : Parser)
    (scanner : Scanner) :
    Error.resync T fuel (P.withPos q) scanner =
      (Error.resync T fuel P scanner).map (fun x => (x.1, x.2.1.withPos q, x.2.2)) := by
  unfold Error.resync
  rw [lookahead_withPos]
  cases lookahead T P with
  | error f => rfl
  | ok a => exact Error_loop_withPos T q fuel _ P scanner

theorem Error_enter_withPos (T : Tables) (q : Int) (P : Parser) (err : Option String) :
    Error.enter T (P.withPos q) err =
      (Error.enter T P err).map (fun x => (x.1, x.2.1.withPos q, x.2.2)) := by
  unfold Error.enter
  rw [popNonRecoveryStates_withPos]
  cases popNonRecoveryStates T P with
  | error f => rfl
  | ok res =>
    obtain ⟨syms, P0⟩ := res
    simp only [Except.map]
    have hst : (P0.withPos q).stack = P0.stack := rfl
    rw [hst]
    cases P0.stack.top with
    | error f => rfl
    | ok s =>
      simp only
      cases index T.actionTab s with
      | error f => rfl
      | ok row =>
        simp only
        cases index row.actions T.errorType with
        | error f => rfl
        | ok oa =>
          cases oa with
          | none => rfl
          | some a =>
            cases a with
            | accept b => rfl
            | shift t => rfl
            | reduce p => rfl

theorem Error_withPos (T : Tables) (q : Int) (fuel : Nat) (P : Parser)
    (err : Option String) (scanner : Scanner) :
    Error T fuel (P.withPos q) err scanner =
      (Error T fuel P err scanner).map (fun r => r.withPos q) := by
  unfold Error
  rw [Error_enter_withPos]
  cases Error.enter T P err with
  | error f => rfl
  | ok res =>
    obtain ⟨ea, P1, pushed⟩ := res
    cases pushed with
    | false => rfl
    | true =>
      simp only [Except.map]
      rw [Error_resync_withPos]
      cases Error.resync T fuel P1 scanner with
      | error f => rfl
      | ok r => rfl

theorem dispatch_withPos (T : Tables) (q : Int) (P : Parser) (scanner : Scanner)
    (a : action) :
    Parse.dispatch T (P.withPos q) scanner a =
      (Parse.dispatch T P scanner a).map (fun s => s.withPos q) := by
  have hst : (P.withPos q).stack = P.stack := rfl
  have hnt : (P.withPos q).nextToken = P.nextToken := rfl
  cases a with
  | accept b =>
    unfold Parse.dispatch
    rw [hst]
    cases P.stack.popN 1 with
    | error f => rfl
    | ok res =>
      obtain ⟨popped, rest⟩ := res
      simp only
      cases index popped 0 with
      | error f => rfl
      | ok x => rfl
  | shift n =>
    unfold Parse.dispatch
    rw [hnt]
    cases P.nextToken with
    | none => rfl
    | some tok => rfl
  | reduce p =>
    simp only [Parse.dispatch]
    cases index T.productionsTable p with
    | error f => rfl
    | ok prod =>
      simp only
      rw [hst]
      cases P.stack.popN prod.NumSymbols with
      | error f => rfl
      | ok res =>
        obtain ⟨popped, rest⟩ := res
        simp only
        cases prod.ReduceFunc popped with
        | error f => rfl
        | ok out =>
          obtain ⟨attrib, e⟩ := out
          cases e with
          | some msg =>
            simp only
            have hne : newError T { P.withPos q with stack := rest } (some msg) =
                newError T { P with stack := rest } (some msg) := rfl
            rw [hne]
            cases newError T { P with stack := rest } (some msg) with
            | error f => rfl
            | ok m => rfl
          | none =>
            simp only
            cases rest.top with
            | error f => rfl
            | ok s =>
              simp only
              cases index T.gotoTab s with
              | error f => rfl
              | ok gotoRow =>
                simp only
                cases index gotoRow prod.NTType with
                | error f => rfl
                | ok nextState => rfl

theorem iter_withPos (T : Tables) (q : Int) (fuel : Nat) (P : Parser) (scanner : Scanner) :
    Parse.iter T fuel (P.withPos q) scanner =
      (Parse.iter T fuel P scanner).map (fun s => s.withPos q) := by
  unfold Parse.iter
  rw [lookahead_withPos]
  cases lookahead T P with
  | error f => rfl
  | ok oa =>
    cases oa with
    | some a => exact dispatch_withPos T q P scanner a
    | none =>
      simp only
      rw [Error_withPos]
      cases Error T fuel P none scanner with
      | error f => rfl
      | ok r =>
        simp only [Except.map]
        have hrec : (r.withPos q).recovered = r.recovered := rfl
        rw [hrec]
        cases hr : r.recovered with
        | false =>
          simp only [if_true]
          have hne : newError T
              { (r.withPos q).P with nextToken := (r.withPos q).errorAttrib.ErrorToken } none =
              newError T { r.P with nextToken := r.errorAttrib.ErrorToken } none := rfl
          rw [hne]
          cases newError T { r.P with nextToken := r.errorAttrib.ErrorToken } none with
          | error f => rfl
          | ok m => rfl
        | true =>
          simp only [Bool.true_eq_false, if_false]
          have hl : lookahead T (r.withPos q).P = lookahead T r.P := rfl
          rw [hl]
          cases lookahead T r.P with
          | error f => rfl
          | ok oa =>
            cases oa with
            | none => rfl
            | some a => exact dispatch_withPos T q r.P r.scanner a

theorem loop_withPos (T : Tables) (q : Int) :
    ∀ (fuel : Nat) (P : Parser) (scanner : Scanner),
      Parse.loop T fuel (P.withPos q) scanner =
        (Parse.loop T fuel P scanner).map (fun r => r.withPos q) := by
  intro fuel
  induction fuel with
  | zero =>
    intro P scanner
    rfl
  | succ fuel ih =>
    intro P scanner
    unfold Parse.loop
    rw [iter_withPos]
    cases Parse.iter T fuel P scanner with
    | error f => rfl
    | ok st =>
      cases st with
      | next P1 sc1 => exact ih P1 sc1
      | accepted res P1 sc1 => rfl
      | failed msg P1 sc1 => rfl

/-- C15: `Parse` does not depend on the state the parser was left in.  For the
same tables, scanner and budget, `Parse` on any parser `P` (any stack, any
stale lookahead) does what it does on a fresh `NewParser()`: the same fault or
the same result, error, final stack, final lookahead and scanner; only the
field `pos` of the parser, which the runtime never reads or writes, is carried
over from `P`.  The reason is that `Parse` starts from the reset stack
`[(0, nil)]` and a newly scanned lookahead. -/
theorem Parse_independent_of_prior_state (T : Tables) (fuel : Nat) (P : Parser)
    (scanner : Scanner) :
    Parse T fuel P scanner =
      (Parse T fuel NewParser scanner).map (fun r => r.withPos P.pos) ∧
    (Parse T fuel P scanner).map
        (fun r => (r.res, r.err, r.P.stack, r.P.nextToken, r.scanner)) =
      (Parse T fuel NewParser scanner).map
        (fun r => (r.res, r.err, r.P.stack, r.P.nextToken, r.scanner)) ∧
    P.Reset.stack = stack.mk [0] [Attrib.nil] ∧
    P.Reset.stack = NewParser.stack := by
  have h1 : Parse T fuel P scanner =
      (Parse T fuel NewParser scanner).map (fun r => r.withPos P.pos) := by
    have hinit : Parse T fuel P scanner =
        Parse.loop T fuel
          (Parser.withPos { NewParser.Reset with nextToken := some scanner.Scan.1 } P.pos)
          scanner.Scan.2 := rfl
    rw [hinit, loop_withPos]
    rfl
  refine ⟨h1, ?_, rfl, rfl⟩
  rw [h1]
  cases Parse T fuel NewParser scanner with
  | error f => rfl
  | ok r => rfl

end Gocc
